import Mathlib

/-!
Verification of the gooseberry local index / sync / filter engines.

This file gives a shallow embedding of the core of the gooseberry
repository (src/utils.rs, src/lib.rs, src/gooseberry/database.rs and the
sync/filter logic of src/gooseberry/mod.rs) and proves or refutes the
specification claims about it.

Naming note: the Rust type `Annotation` and functions such as
`add_annotation` are embedded under the shortened names `Annot`,
`addAnnot`, `deleteAnnot`, ... ; the correspondence is recorded in each
doc comment.  `sled` trees are modelled as functions `String → Option _`
(key → stored value); `sled::Batch` is modelled as the list of its
pending operations, applied in order.  Errors (`Apologize` in
src/errors.rs) are modelled with `GErr` and Rust `Result` with `Except`.
Immediate tree mutations are threaded explicitly: a fallible operation
returns `Except GErr α × DB`, the returned `DB` holding every mutation
performed before the error point (as in `sled`, where writes are applied
eagerly and `?` only aborts control flow).
-/

namespace Gooseberry

/-- EMPTY_TAG of src/lib.rs: sentinel stored for untagged items. -/
def EMPTY_TAG : String := "Untagged"

/-- IGNORE_TAG of src/lib.rs: sentinel meaning "gooseberry ignores this". -/
def IGNORE_TAG : String := "gooseberry_ignore"

/-- Splitting a byte string on ';', over `List Char`.  Models the
semantics of Rust `str::split(';')` as used by `utils::split_ids`:
the empty string yields `[""]`, `";"` yields `["", ""]`, etc. -/
def splitSemi : List Char → List (List Char)
  | [] => [[]]
  | c :: rest =>
    match splitSemi rest with
    | [] => []
    | w :: ws => if c = ';' then [] :: w :: ws else (c :: w) :: ws

/-- Joining with ';', over `List Char`.  Models `[String]::join(";")`
as used by `utils::join_ids`. -/
def joinSemi : List (List Char) → List Char
  | [] => []
  | [w] => w
  | w :: ws => w ++ ';' :: joinSemi ws

/-- split_ids of src/utils.rs: splits a stored index value by semicolon
into a list of IDs (or tags). -/
def split_ids (s : String) : List String :=
  (splitSemi s.data).map fun l => String.mk l

/-- join_ids of src/utils.rs: joins a list of IDs (or tags) with
semicolons into the stored index value. -/
def join_ids (xs : List String) : String :=
  String.mk (joinSemi (xs.map String.data))

/-- Selector payload of an annotation target; gooseberry only
distinguishes `TextQuoteSelector` (whose `exact` text it extracts)
from every other selector kind. -/
inductive Sel where
  | textQuote (exact : String) : Sel
  | other : Sel
deriving DecidableEq

/-- Target of an annotation (hypothesis::annotations::Target),
keeping only the `selector` list used by the filter engine. -/
structure Target where
  selector : List Sel
deriving DecidableEq

/-- Annot models hypothesis::annotations::Annotation: the locally
mirrored record.  Timestamps are modelled as naturals (`created`,
`updated`); the remaining payload fields gooseberry never inspects are
elided. -/
structure Annot where
  id : String
  group : String
  uri : String
  text : String
  tags : List String
  created : Nat
  updated : Nat
  target : List Target
deriving DecidableEq

/-- Errors of src/errors.rs (Apologize) relevant to the index engine. -/
inductive GErr where
  | annotNotFound (id : String) : GErr
  | tagNotFound (tag : String) : GErr
deriving DecidableEq

deriving instance DecidableEq for Except

/-- A `sled` tree, modelled as key → stored value. -/
abbrev Tree (α : Type) : Type := String → Option α

/-- Point update of a tree (insert with `some`, remove with `none`). -/
def upd {α : Type} (m : Tree α) (k : String) (v : Option α) : Tree α :=
  fun k' => if k' = k then v else m k'

/-- A `sled::Batch`: the list of pending inserts/removes, in order. -/
abbrev Batch (α : Type) : Type := List (String × Option α)

/-- Tree::apply_batch: performs the batched operations in order. -/
def applyBatch {α : Type} (m : Tree α) (b : Batch α) : Tree α :=
  b.foldl (fun m op => upd m op.1 op.2) m

/-- The gooseberry database: the three trees of database.rs plus the
`last_sync_time` scalar.  `annots` is the annotations tree (id →
record), `annotToTags` the annotation_to_tags tree (id → joined tag
list) and `tagToAnnots` the tag_to_annotations tree (tag → joined id
list). -/
structure DB where
  annots : Tree Annot
  annotToTags : Tree String
  tagToAnnots : Tree String
  lastSyncTime : Option Nat

/-- The empty database (fresh store, no last_sync_time). -/
def emptyDB : DB :=
  { annots := fun _ => none
    annotToTags := fun _ => none
    tagToAnnots := fun _ => none
    lastSyncTime := none }

/-- merge_index of src/gooseberry/database.rs: if a value exists, the
new value is appended after a semicolon; result value of the merge. -/
def merge_index (old : Option String) (new : String) : String :=
  match old with
  | none => new
  | some w => if w = "" then new else w ++ ";" ++ new

/-- Tree::merge on the tag_to_annotations tree with `merge_index`. -/
def mergeT2A (db : DB) (k : String) (v : String) : DB :=
  { db with tagToAnnots := upd db.tagToAnnots k (some (merge_index (db.tagToAnnots k) v)) }

/-- Whitespace test on a character, modelling Rust char::is_whitespace
for the characters that occur in practice. -/
def isWs (c : Char) : Bool :=
  c = ' ' || c = '\t' || c = '\n' || c = '\r'

/-- Models Rust `t.trim().is_empty()`: the trimmed string is empty iff
every character is whitespace. -/
def trimEmpty (t : String) : Bool := t.data.all isWs

/-- The `for tag in &annotation.tags` loop of add_annotation (database.rs
lines 89-95): each non-empty tag's bucket gets the id merged in; empty
tags are skipped. -/
def addTagsLoop (db : DB) (tags : List String) (id : String) : DB :=
  tags.foldl (fun db t => if t = "" then db else mergeT2A db t id) db

/-- add_annotation of database.rs (lines 77-101), embedding `addAnnot`:
pushes the annotation_to_tags insert and the record insert onto the two
batches, and eagerly merges the id into the tag_to_annotations tree —
under `EMPTY_TAG` when the tag list is empty or all-whitespace,
otherwise under each non-empty tag. -/
def addAnnot (db : DB) (a : Annot) (annB : Batch Annot) (a2tB : Batch String) :
    DB × Batch Annot × Batch String :=
  let a2tB' := a2tB ++ [(a.id, some (join_ids a.tags))]
  let db' :=
    if a.tags = [] ∨ ¬ a.tags.any (fun t => ¬ trimEmpty t) then
      mergeT2A db EMPTY_TAG a.id
    else
      addTagsLoop db a.tags a.id
  let annB' := annB ++ [(a.id, some a)]
  (db', annB', a2tB')

/-- delete_from_tag_to_annotations_tree of database.rs (lines 137-158),
embedding `deleteFromT2A`: filters the id out of the tag's stored list;
removes the key when the list empties; TagNotFound when absent. -/
def deleteFromT2A (db : DB) (tagKey : String) (id : String) : Except GErr Unit × DB :=
  match db.tagToAnnots tagKey with
  | none => (Except.error (GErr.tagNotFound tagKey), db)
  | some w =>
    let newIndices := (split_ids w).filter fun i => i ≠ id
    if newIndices = [] then
      (Except.ok (), { db with tagToAnnots := upd db.tagToAnnots tagKey none })
    else
      (Except.ok (), { db with tagToAnnots := upd db.tagToAnnots tagKey (some (join_ids newIndices)) })

/-- delete_from_annotation_to_tags_tree of database.rs (lines 161-169),
embedding `deleteFromA2T`: removes the id's entry and returns its split
tag list; AnnotationNotFound when absent. -/
def deleteFromA2T (db : DB) (id : String) : Except GErr (List String) × DB :=
  match db.annotToTags id with
  | none => (Except.error (GErr.annotNotFound id), db)
  | some v =>
    (Except.ok (split_ids v), { db with annotToTags := upd db.annotToTags id none })

/-- delete_from_annotations_tree of database.rs (lines 172-176): removes
the record (no error when absent). -/
def deleteFromAnnots (db : DB) (id : String) : DB :=
  { db with annots := upd db.annots id none }

/-- The `for tag in &tags` loop of delete_annotation (database.rs lines
181-186): empty tags are skipped, others removed from their bucket,
propagating the first error. -/
def deleteTagsLoop (db : DB) (tags : List String) (id : String) : Except GErr Unit × DB :=
  match tags with
  | [] => (Except.ok (), db)
  | t :: rest =>
    if t = "" then deleteTagsLoop db rest id
    else
      match deleteFromT2A db t id with
      | (Except.error e, db') => (Except.error e, db')
      | (Except.ok _, db') => deleteTagsLoop db' rest id

/-- delete_annotation of database.rs (lines 179-189), embedding
`deleteAnnot`: removes the annotation_to_tags entry, removes the id from
each non-empty tag's bucket, then removes the record. -/
def deleteAnnot (db : DB) (id : String) : Except GErr (List String) × DB :=
  match deleteFromA2T db id with
  | (Except.error e, db') => (Except.error e, db')
  | (Except.ok tags, db') =>
    match deleteTagsLoop db' tags id with
    | (Except.error e, db'') => (Except.error e, db'')
    | (Except.ok _, db'') => (Except.ok tags, deleteFromAnnots db'' id)

/-- The per-record loop of sync_annotations (database.rs lines 111-129):
an id already present in the annotation_to_tags tree is deleted and
re-added (counted `updated`), otherwise added (counted `added`); the two
batches accumulate and tag merges apply eagerly. -/
def syncLoop (db : DB) (anns : List Annot) (added updated : Nat)
    (annB : Batch Annot) (a2tB : Batch String) :
    Except GErr (Nat × Nat × Batch Annot × Batch String) × DB :=
  match anns with
  | [] => (Except.ok (added, updated, annB, a2tB), db)
  | a :: rest =>
    if (db.annotToTags a.id).isSome then
      match deleteAnnot db a.id with
      | (Except.error e, db') => (Except.error e, db')
      | (Except.ok _, db') =>
        syncLoop (addAnnot db' a annB a2tB).1 rest added (updated + 1)
          (addAnnot db' a annB a2tB).2.1 (addAnnot db' a annB a2tB).2.2
    else
      syncLoop (addAnnot db a annB a2tB).1 rest (added + 1) updated
        (addAnnot db a annB a2tB).2.1 (addAnnot db a annB a2tB).2.2

/-- sync_annotations of database.rs (lines 104-134), embedding
`syncAnnots`: runs the per-record loop, then applies the
annotation_to_tags batch and the annotations batch. -/
def syncAnnots (db : DB) (anns : List Annot) : Except GErr (Nat × Nat) × DB :=
  match syncLoop db anns 0 0 [] [] with
  | (Except.error e, db') => (Except.error e, db')
  | (Except.ok r, db') =>
    (Except.ok (r.1, r.2.1),
      { db' with annotToTags := applyBatch db'.annotToTags r.2.2.2
                 annots := applyBatch db'.annots r.2.2.1 })

/-- get_annotation_tags of database.rs (lines 221-234), embedding
`getAnnotTags`: splits the stored tag list, decoding the on-disk empty
encoding (a single empty string) as the empty list. -/
def getAnnotTags (db : DB) (id : String) : Except GErr (List String) :=
  match db.annotToTags id with
  | none => Except.error (GErr.annotNotFound id)
  | some v =>
    let tags := split_ids v
    if tags.length = 1 ∧ tags.headI = "" then Except.ok [] else Except.ok tags

/-- get_tagged_annotations of database.rs (lines 212-218), embedding
`getTaggedAnnots`: splits the tag's stored id list; TagNotFound when the
tag has no entry. -/
def getTaggedAnnots (db : DB) (tag : String) : Except GErr (List String) :=
  match db.tagToAnnots tag with
  | none => Except.error (GErr.tagNotFound tag)
  | some w => Except.ok (split_ids w)

/-- get_annotation of database.rs (lines 237-244), embedding `getAnnot`
(the CBOR round trip is the identity in the model). -/
def getAnnot (db : DB) (id : String) : Except GErr Annot :=
  match db.annots id with
  | none => Except.error (GErr.annotNotFound id)
  | some a => Except.ok a

/-- The inner `for tag in &tags` loop of delete_annotations (database.rs
lines 200-202): unlike delete_annotation, empty tags are not skipped. -/
def deleteAnnotsTagLoop (db : DB) (tags : List String) (id : String) : Except GErr Unit × DB :=
  match tags with
  | [] => (Except.ok (), db)
  | t :: rest =>
    match deleteFromT2A db t id with
    | (Except.error e, db') => (Except.error e, db')
    | (Except.ok _, db') => deleteAnnotsTagLoop db' rest id

/-- The per-id loop of delete_annotations (database.rs lines 196-204). -/
def deleteAnnotsLoop (db : DB) (ids : List String)
    (a2tB : Batch String) (annB : Batch Annot) (tagsList : List (List String)) :
    Except GErr (Batch String × Batch Annot × List (List String)) × DB :=
  match ids with
  | [] => (Except.ok (a2tB, annB, tagsList), db)
  | id :: rest =>
    match getAnnotTags db id with
    | Except.error e => (Except.error e, db)
    | Except.ok tags =>
      match deleteAnnotsTagLoop db tags id with
      | (Except.error e, db') => (Except.error e, db')
      | (Except.ok _, db') =>
        deleteAnnotsLoop db' rest (a2tB ++ [(id, none)]) (annB ++ [(id, none)])
          (tagsList ++ [tags])

/-- delete_annotations of database.rs (lines 192-209), embedding
`deleteAnnots`: reads each id's tags, queues its two batch removals,
eagerly removes it from each tag's bucket, then applies the batches. -/
def deleteAnnots (db : DB) (ids : List String) : Except GErr (List (List String)) × DB :=
  match deleteAnnotsLoop db ids [] [] [] with
  | (Except.error e, db') => (Except.error e, db')
  | (Except.ok r, db') =>
    (Except.ok r.2.2,
      { db' with annotToTags := applyBatch db'.annotToTags r.1
                 annots := applyBatch db'.annots r.2.1 })

/-- MIN_DATE of src/lib.rs, abstracted to timestamp 0. -/
def MIN_DATE : Nat := 0

/-- set_sync_time of database.rs (lines 45-48). -/
def setSyncTime (db : DB) (datetime : Nat) : DB :=
  { db with lastSyncTime := some datetime }

/-- get_sync_time of database.rs (lines 51-56). -/
def getSyncTime (db : DB) : Nat :=
  db.lastSyncTime.getD MIN_DATE

/-- sync of src/gooseberry/mod.rs (lines 145-201), its local part: the
remote fetch is abstracted as the list `fetched` of annotations the API
returned; `now` models `Utc::now()`.  The records are applied with
sync_annotations and only then is the cursor written — to `now`, not to
any record's `updated` value. -/
def sync (db : DB) (fetched : List Annot) (now : Nat) : Except GErr (Nat × Nat) × DB :=
  match syncAnnots db fetched with
  | (Except.error e, db') => (Except.error e, db')
  | (Except.ok counts, db') => (Except.ok counts, setSyncTime db' now)

/-- Filters of src/gooseberry/cli.rs (the filter spec).  `fromDate`
embeds the Rust field `from` (a Lean keyword); `annotOnly` embeds the
field `annotation`; `groups` is the group filter referenced by
filter_annotation. -/
structure Filters where
  fromDate : Option Nat := none
  before : Option Nat := none
  includeUpdated : Bool := false
  uri : String := ""
  any : String := ""
  tags : List String := []
  excludeTags : List String := []
  quote : String := ""
  text : String := ""
  not : Bool := false
  and : Bool := false
  page : Bool := false
  annotOnly : Bool := false
  groups : List String := []
deriving DecidableEq

/-- Substring containment, modelling Rust `str::contains(&str)`. -/
def strContains (s pat : String) : Bool :=
  decide (pat.data <:+: s.data)

/-- get_quotes of src/utils.rs: the `exact` texts of all
TextQuoteSelectors across all targets. -/
def getQuotes (a : Annot) : List String :=
  (a.target.filterMap fun t =>
    let quotes := t.selector.filterMap fun s =>
      match s with
      | Sel.textQuote exact => some exact
      | Sel.other => none
    if quotes = [] then none else some quotes).flatten

/-- Lookup in the configured `hypothesis_groups` map (group id → group
name), modelled as an association list. -/
def lookupGroup (hypGroups : List (String × String)) (k : String) : Option String :=
  (hypGroups.find? fun p => p.1 = k).map fun p => p.2

/-- filter_annotation of src/gooseberry/mod.rs (lines 286-382),
embedding `filterAnnot`: the pure predicate one Filters value evaluates
over one annotation.  Note the `and` branch: the code keeps an
annotation when every one of ITS tags is among the query tags
(`annotation.tags ⊆ filters.tags`), not the other way around. -/
def filterAnnot (hypGroups : List (String × String)) (a : Annot) (f : Filters) : Bool :=
  if f.groups ≠ [] ∧ ¬ f.groups.contains a.group ∧
      ¬ f.groups.contains ((lookupGroup hypGroups a.group).getD a.group) then false
  else if f.page ∧ a.target.any (fun t => ¬ t.selector.isEmpty) then false
  else if f.annotOnly ∧ a.target.all (fun t => t.selector.isEmpty) then false
  else if (match f.fromDate with
           | some fr => if f.includeUpdated then decide (a.updated < fr) else decide (a.created < fr)
           | none => false) then false
  else if (match f.before with
           | some b => if f.includeUpdated then decide (a.updated > b) else decide (a.created > b)
           | none => false) then false
  else if f.uri ≠ "" ∧ ¬ strContains a.uri f.uri then false
  else if ¬ (f.any = "" ∨ strContains (String.intercalate " " (getQuotes a)) f.any ∨
      a.tags.any (fun t => strContains t f.any) ∨ strContains a.text f.any ∨
      strContains a.uri f.any) then false
  else if f.tags ≠ [] ∧ f.and ∧ ¬ a.tags.all (fun t => f.tags.contains t) then false
  else if f.tags ≠ [] ∧ ¬ f.and ∧ ¬ a.tags.any (fun t => f.tags.contains t) then false
  else if f.excludeTags ≠ [] ∧ a.tags.any (fun t => f.excludeTags.contains t) then false
  else if f.quote ≠ "" ∧ ¬ strContains (String.intercalate " " (getQuotes a)) f.quote then false
  else if f.text ≠ "" ∧ ¬ strContains a.text f.text then false
  else true

/-- Stable insertion into a list sorted by `created` (ascending). -/
def insertByCreated (a : Annot) : List Annot → List Annot
  | [] => [a]
  | b :: bs => if a.created ≤ b.created then a :: b :: bs else b :: insertByCreated a bs

/-- Stable ascending sort by `created`, modelling
`annotations.sort_by(|a, b| a.created.cmp(&b.created))`. -/
def sortByCreated (anns : List Annot) : List Annot :=
  anns.foldr insertByCreated []

/-- filter_annotations of src/gooseberry/mod.rs (lines 385-401),
embedding `filterAnnots`: the iteration over the annotations tree is
abstracted as the input list `anns`; a record is kept when the
predicate holds (or fails, under the top-level NOT flag), and the
result is sorted ascending by `created`. -/
def filterAnnots (hypGroups : List (String × String)) (anns : List Annot) (f : Filters) :
    List Annot :=
  sortByCreated (anns.filter fun a =>
    if f.not then ! filterAnnot hypGroups a f else filterAnnot hypGroups a f)

/-- The list of ids a stored bucket value decodes to (empty for an
absent bucket). -/
def obucket (o : Option String) : List String :=
  match o with
  | none => []
  | some w => split_ids w

/-- The set of ids currently stored under a tag (empty when the tag has
no entry); the set view of one tag_to_annotations bucket. -/
def bucketIds (db : DB) (k : String) : List String :=
  obucket (db.tagToAnnots k)

/-- Shorthand to build a concrete annotation for test inputs. -/
def mkAnn (id : String) (tags : List String) (created updated : Nat) : Annot :=
  { id := id, group := "g", uri := "", text := "", tags := tags,
    created := created, updated := updated, target := [] }

/-- A well-formed id or tag string: non-empty and free of the reserved
index delimiter ';'. -/
def GoodStr (t : String) : Prop := t ≠ "" ∧ ';' ∉ t.data

/-- A well-formed incoming annotation: good id, good tags, and (unless
untagged) at least one tag that is not whitespace-only. -/
def GoodAnn (a : Annot) : Prop :=
  GoodStr a.id ∧ (∀ t ∈ a.tags, GoodStr t) ∧
    (a.tags ≠ [] → ∃ t ∈ a.tags, trimEmpty t = false)

/-- The internal well-formedness invariant of the two index trees that
the operations of database.rs maintain (for well-formed inputs):
`wfA2T`/`wfT2A` say stored values are well-formed encodings, `fwd` that
every non-empty stored tag of an id has a bucket holding the id, `rev`
that (outside the `EMPTY_TAG` bucket, which may keep ids of deleted
untagged annotations) every bucket member records that tag. -/
structure Inv (db : DB) : Prop where
  wfA2T : ∀ id v, db.annotToTags id = some v →
    GoodStr id ∧ (v = "" ∨ ∀ t ∈ split_ids v, GoodStr t)
  fwd : ∀ id v, db.annotToTags id = some v → ∀ t ∈ split_ids v, t ≠ "" →
    ∃ w, db.tagToAnnots t = some w ∧ id ∈ split_ids w
  wfT2A : ∀ t w, db.tagToAnnots t = some w →
    GoodStr t ∧ w ≠ "" ∧ ∀ i ∈ split_ids w, GoodStr i
  rev : ∀ t w, db.tagToAnnots t = some w → t ≠ EMPTY_TAG → ∀ i ∈ split_ids w,
    ∃ v, db.annotToTags i = some v ∧ t ∈ split_ids v

/-- One successful mutation of the store: a sync batch of well-formed
annotations with pairwise-distinct ids, a single delete, or a batch
delete.  Only steps whose Rust counterpart returns `Ok` are included. -/
inductive GStep : DB → DB → Prop where
  | syncStep (db : DB) (anns : List Annot) :
      (∀ a ∈ anns, GoodAnn a) → (anns.map Annot.id).Nodup →
      (∃ r, (syncAnnots db anns).1 = Except.ok r) →
      GStep db (syncAnnots db anns).2
  | deleteStep (db : DB) (id : String) :
      (∃ ts, (deleteAnnot db id).1 = Except.ok ts) →
      GStep db (deleteAnnot db id).2
  | deleteBatchStep (db : DB) (ids : List String) :
      (∃ r, (deleteAnnots db ids).1 = Except.ok r) →
      GStep db (deleteAnnots db ids).2

/-- Reachability of a database state from the fresh store by successful
operations. -/
def Reach (db : DB) : Prop := Relation.ReflTransGen GStep emptyDB db

/-- The bidirectional-consistency property exactly as the specification
states it: for every stored id whose tag read-back succeeds with `T`,
every tag of `T` has a bucket containing the id, and every bucket
containing the id is named by a tag of `T`. -/
def TagIndexConsistentStated (db : DB) : Prop :=
  ∀ id a, db.annots id = some a → ∀ T, getAnnotTags db id = Except.ok T →
    (∀ t ∈ T, ∃ ids, getTaggedAnnots db t = Except.ok ids ∧ id ∈ ids) ∧
    (∀ t' ids', getTaggedAnnots db t' = Except.ok ids' → id ∈ ids' → t' ∈ T)

/-- The bidirectional-consistency property with the `EMPTY_TAG` bucket
exempted from the reverse direction (the bucket that encodes "untagged"
and may also retain ids of deleted untagged annotations). -/
def TagIndexConsistent (db : DB) : Prop :=
  ∀ id a, db.annots id = some a → ∀ T, getAnnotTags db id = Except.ok T →
    (∀ t ∈ T, ∃ ids, getTaggedAnnots db t = Except.ok ids ∧ id ∈ ids) ∧
    (∀ t' ids', t' ≠ EMPTY_TAG → getTaggedAnnots db t' = Except.ok ids' → id ∈ ids' →
      t' ∈ T)

/-- Observational equality of two database states: identical record
store and annotation→tags results, and tag→annotations buckets that
exist for the same tags and hold the same id sets. -/
def SameVisible (d1 d2 : DB) : Prop :=
  (∀ k, d1.annots k = d2.annots k) ∧
  (∀ k, d1.annotToTags k = d2.annotToTags k) ∧
  (∀ k, (d1.tagToAnnots k).isSome = (d2.tagToAnnots k).isSome) ∧
  (∀ k i, i ∈ bucketIds d1 k ↔ i ∈ bucketIds d2 k)

/-- No trace of an id anywhere in the store: the "not previously
present" precondition of the round-trip property. -/
def NoTrace (db : DB) (id : String) : Prop :=
  db.annotToTags id = none ∧ db.annots id = none ∧ ∀ k, id ∉ bucketIds db k

/-- Well-formed buckets never store the empty string (true of every
reachable state; used as a hypothesis when starting from an arbitrary
state). -/
def BucketsNonempty (db : DB) : Prop :=
  ∀ k w, db.tagToAnnots k = some w → w ≠ ""

/-- Buckets never list the empty string as a member (true of every
reachable state). -/
def GoodBuckets (db : DB) : Prop :=
  ∀ k, "" ∉ bucketIds db k

/-- The value delete_from_tag_to_annotations_tree stores back for a
bucket `w` after filtering out `id`: `none` when the bucket empties. -/
def filterVal (w id : String) : Option String :=
  let l := (split_ids w).filter fun i => i ≠ id
  if l = [] then none else some (join_ids l)

/-- The invariant of a mid-sync state: `B` is the pending
annotation_to_tags insert batch.  Tree well-formedness as in `Inv`;
the forward direction holds for ids with stored tag lists; the reverse
direction may route through the pending batch; pending entries carry
their own forward/reverse facts and have no stored tag list yet. -/
structure SyncMid (db : DB) (B : Batch String) : Prop where
  wfA2T : ∀ id v, db.annotToTags id = some v →
    GoodStr id ∧ (v = "" ∨ ∀ t ∈ split_ids v, GoodStr t)
  fwd : ∀ id v, db.annotToTags id = some v → ∀ t ∈ split_ids v, t ≠ "" →
    ∃ w, db.tagToAnnots t = some w ∧ id ∈ split_ids w
  wfT2A : ∀ t w, db.tagToAnnots t = some w →
    GoodStr t ∧ w ≠ "" ∧ ∀ i ∈ split_ids w, GoodStr i
  rev : ∀ t w, db.tagToAnnots t = some w → t ≠ EMPTY_TAG → ∀ i ∈ split_ids w,
    (∃ v, db.annotToTags i = some v ∧ t ∈ split_ids v) ∨
    (∃ v, (i, some v) ∈ B ∧ t ∈ split_ids v)
  batch : ∀ p ∈ B, ∃ i v, p = (i, some v) ∧ GoodStr i ∧ db.annotToTags i = none ∧
    (v = "" ∨ ∀ t ∈ split_ids v, GoodStr t) ∧
    (∀ t ∈ split_ids v, t ≠ "" → ∃ w, db.tagToAnnots t = some w ∧ i ∈ split_ids w) ∧
    (∀ t w, db.tagToAnnots t = some w → t ≠ EMPTY_TAG → i ∈ split_ids w →
      t ∈ split_ids v)
  keysNodup : (B.map Prod.fst).Nodup

/-- The invariant of a mid-batch-delete state: `db0` is the state at
entry, `X` the ids already processed (whose buckets are cleaned while
their record/tag-list entries are still pending batched removal). -/
structure DelMid (db0 db : DB) (X : List String) : Prop where
  a2t_eq : ∀ k, db.annotToTags k = db0.annotToTags k
  annots_eq : ∀ k, db.annots k = db0.annots k
  wfA2T : ∀ id v, db.annotToTags id = some v →
    GoodStr id ∧ (v = "" ∨ ∀ t ∈ split_ids v, GoodStr t)
  fwdX : ∀ id v, db.annotToTags id = some v → id ∉ X → ∀ t ∈ split_ids v, t ≠ "" →
    ∃ w, db.tagToAnnots t = some w ∧ id ∈ split_ids w
  wfT2A : ∀ t w, db.tagToAnnots t = some w →
    GoodStr t ∧ w ≠ "" ∧ ∀ i ∈ split_ids w, GoodStr i
  rev : ∀ t w, db.tagToAnnots t = some w → t ≠ EMPTY_TAG → ∀ i ∈ split_ids w,
    ∃ v, db.annotToTags i = some v ∧ t ∈ split_ids v
  clean : ∀ i ∈ X, ∀ t w, db.tagToAnnots t = some w → t ≠ EMPTY_TAG → i ∉ split_ids w

/-! Lemmas about the semicolon-delimited index encoding. -/

theorem exists_cons_splitSemi (l : List Char) : ∃ w ws, splitSemi l = w :: ws := by
  induction l with
  | nil => exact ⟨[], [], rfl⟩
  | cons c rest ih =>
    obtain ⟨w, ws, h⟩ := ih
    by_cases hc : c = ';'
    · exact ⟨[], w :: ws, by simp [splitSemi, h, hc]⟩
    · exact ⟨c :: w, ws, by simp [splitSemi, h, hc]⟩

theorem splitSemi_ne_nil (l : List Char) : splitSemi l ≠ [] := by
  obtain ⟨w, ws, h⟩ := exists_cons_splitSemi l
  simp [h]

theorem splitSemi_sep (l r : List Char) :
    splitSemi (l ++ ';' :: r) = splitSemi l ++ splitSemi r := by
  induction l with
  | nil =>
    obtain ⟨w, ws, h⟩ := exists_cons_splitSemi r
    simp [splitSemi, h]
  | cons c l ih =>
    obtain ⟨u, us, h2⟩ := exists_cons_splitSemi l
    by_cases hc : c = ';' <;>
      simp [List.cons_append, splitSemi, ih, h2, hc]

theorem splitSemi_no_semi : ∀ l : List Char, ';' ∉ l → splitSemi l = [l] := by
  intro l
  induction l with
  | nil => intro _; rfl
  | cons c rest ih =>
    intro h
    have hc : c ≠ ';' := fun he => h (he ▸ List.mem_cons_self c rest)
    have hr : ';' ∉ rest := fun hm => h (List.mem_cons_of_mem _ hm)
    simp [splitSemi, ih hr, hc]

theorem mem_splitSemi_no_semi : ∀ l : List Char, ∀ p ∈ splitSemi l, ';' ∉ p := by
  intro l
  induction l with
  | nil => simp [splitSemi]
  | cons c rest ih =>
    obtain ⟨w, ws, h⟩ := exists_cons_splitSemi rest
    rw [h] at ih
    intro p hp
    by_cases hc : c = ';'
    · simp [splitSemi, h, hc] at hp
      rcases hp with hp | hp | hp
      · simp [hp]
      · exact hp ▸ ih w (by simp)
      · exact ih p (by simp [hp])
    · simp [splitSemi, h, hc] at hp
      rcases hp with hp | hp
      · subst hp
        intro hmem
        rcases List.mem_cons.mp hmem with he | hm
        · exact hc he.symm
        · exact ih w (by simp) hm
      · exact ih p (by simp [hp])

theorem joinSemi_cons_head (c : Char) (w : List Char) (ws : List (List Char)) :
    joinSemi ((c :: w) :: ws) = c :: joinSemi (w :: ws) := by
  cases ws <;> simp [joinSemi]

theorem joinSemi_splitSemi (l : List Char) : joinSemi (splitSemi l) = l := by
  induction l with
  | nil => rfl
  | cons c rest ih =>
    obtain ⟨w, ws, h⟩ := exists_cons_splitSemi rest
    rw [h] at ih
    by_cases hc : c = ';'
    · simp [splitSemi, h, hc, joinSemi, ih]
    · simp [splitSemi, h, hc, joinSemi_cons_head, ih]

theorem splitSemi_joinSemi : ∀ xs : List (List Char), xs ≠ [] → (∀ x ∈ xs, ';' ∉ x) →
    splitSemi (joinSemi xs) = xs := by
  intro xs
  induction xs with
  | nil => simp
  | cons x xs ih =>
    intro _ hx
    cases xs with
    | nil => simpa [joinSemi] using splitSemi_no_semi x (hx x (by simp))
    | cons y ys =>
      have hj : joinSemi (x :: y :: ys) = x ++ ';' :: joinSemi (y :: ys) := by
        simp [joinSemi]
      rw [hj, splitSemi_sep, splitSemi_no_semi x (hx x (by simp)),
        ih (by simp) (fun z hz => hx z (by simp [hz]))]
      rfl

theorem mk_data (s : String) : String.mk s.data = s := rfl

theorem split_ids_join_ids (xs : List String) (h : xs ≠ [])
    (h2 : ∀ x ∈ xs, ';' ∉ x.data) : split_ids (join_ids xs) = xs := by
  unfold split_ids join_ids
  rw [splitSemi_joinSemi (xs.map String.data)
    (by simpa using h) (by simpa using h2), List.map_map]
  exact List.map_id xs

theorem join_ids_split_ids (s : String) : join_ids (split_ids s) = s := by
  unfold split_ids join_ids
  rw [List.map_map]
  have hcomp : (String.data ∘ fun l : List Char => String.mk l) = id := rfl
  rw [hcomp, List.map_id, joinSemi_splitSemi]

theorem mem_split_ids_no_semi (s : String) : ∀ p ∈ split_ids s, ';' ∉ p.data := by
  intro p hp
  unfold split_ids at hp
  obtain ⟨l, hl, hpl⟩ := List.mem_map.mp hp
  exact hpl ▸ mem_splitSemi_no_semi s.data l hl

theorem split_ids_eq_empty (s : String) : split_ids s = [""] ↔ s = "" := by
  constructor
  · intro h
    have := join_ids_split_ids s
    rw [h] at this
    exact this.symm
  · intro h
    subst h
    rfl

theorem split_ids_ne_nil (s : String) : split_ids s ≠ [] := by
  unfold split_ids
  simpa using splitSemi_ne_nil s.data

theorem split_ids_sep (w v : String) :
    split_ids (w ++ ";" ++ v) = split_ids w ++ split_ids v := by
  unfold split_ids
  rw [show (w ++ ";" ++ v).data = w.data ++ ';' :: v.data by
    simp [String.data_append], splitSemi_sep, List.map_append]

/-! C10: the index encoding round trip. -/

/-- C10 counterexample: at `xs = []` the biconditional claimed by the
specification fails — the empty list round-trips to `[""]`, not to
`[]`, although none of its (zero) elements contains ';'. -/
theorem C10_counterexample :
    ¬ (split_ids (join_ids ([] : List String)) = ([] : List String) ↔
        ∀ x ∈ ([] : List String), ';' ∉ x.data) := by
  decide

/-- C10 (amended): for every NON-EMPTY list of strings `xs`,
`split_ids (join_ids xs) = xs` holds iff no element of `xs` contains
';'; an element containing ';' is silently split on read-back. -/
theorem C10_roundtrip (xs : List String) (h : xs ≠ []) :
    split_ids (join_ids xs) = xs ↔ ∀ x ∈ xs, ';' ∉ x.data := by
  constructor
  · intro he x hx
    have hmem : x ∈ split_ids (join_ids xs) := by rw [he]; exact hx
    exact mem_split_ids_no_semi (join_ids xs) x hmem
  · intro hs
    exact split_ids_join_ids xs h hs

/-- C10 witness: the amended round trip evaluated at `["a", "b"]`. -/
theorem C10_roundtrip_witness :
    split_ids (join_ids ["a", "b"]) = ["a", "b"] ↔
      ∀ x ∈ (["a", "b"] : List String), ';' ∉ x.data :=
  C10_roundtrip ["a", "b"] (by decide)

/-! Frame lemmas: which fields each operation leaves unchanged. -/

theorem addTagsLoop_frame : ∀ (tags : List String) (db : DB) (id : String),
    (addTagsLoop db tags id).annots = db.annots ∧
    (addTagsLoop db tags id).annotToTags = db.annotToTags ∧
    (addTagsLoop db tags id).lastSyncTime = db.lastSyncTime := by
  intro tags
  induction tags with
  | nil => intro db id; exact ⟨rfl, rfl, rfl⟩
  | cons t rest ih =>
    intro db id
    have hstep : addTagsLoop db (t :: rest) id
        = addTagsLoop (if t = "" then db else mergeT2A db t id) rest id := rfl
    rw [hstep]
    by_cases ht : t = ""
    · simpa [ht] using ih db id
    · rw [if_neg ht]
      obtain ⟨h1, h2, h3⟩ := ih (mergeT2A db t id) id
      exact ⟨h1, h2, h3⟩

theorem deleteFromT2A_frame (db : DB) (k id : String) :
    (deleteFromT2A db k id).2.annots = db.annots ∧
    (deleteFromT2A db k id).2.annotToTags = db.annotToTags ∧
    (deleteFromT2A db k id).2.lastSyncTime = db.lastSyncTime := by
  unfold deleteFromT2A
  cases db.tagToAnnots k with
  | none => exact ⟨rfl, rfl, rfl⟩
  | some w =>
    dsimp only
    split <;> exact ⟨rfl, rfl, rfl⟩

theorem deleteTagsLoop_frame : ∀ (tags : List String) (db : DB) (id : String),
    (deleteTagsLoop db tags id).2.annots = db.annots ∧
    (deleteTagsLoop db tags id).2.annotToTags = db.annotToTags ∧
    (deleteTagsLoop db tags id).2.lastSyncTime = db.lastSyncTime := by
  intro tags
  induction tags with
  | nil => intro db id; exact ⟨rfl, rfl, rfl⟩
  | cons t rest ih =>
    intro db id
    unfold deleteTagsLoop
    by_cases ht : t = ""
    · simpa [ht] using ih db id
    · simp only [ht, if_false]
      cases hd : deleteFromT2A db t id with
      | mk res db' =>
        have hf := deleteFromT2A_frame db t id
        rw [hd] at hf
        cases res with
        | error e => exact hf
        | ok u =>
          obtain ⟨h1, h2, h3⟩ := ih db' id
          exact ⟨h1.trans hf.1, h2.trans hf.2.1, h3.trans hf.2.2⟩

theorem deleteFromA2T_frame (db : DB) (id : String) :
    (deleteFromA2T db id).2.annots = db.annots ∧
    (deleteFromA2T db id).2.tagToAnnots = db.tagToAnnots ∧
    (deleteFromA2T db id).2.lastSyncTime = db.lastSyncTime := by
  unfold deleteFromA2T
  cases db.annotToTags id with
  | none => exact ⟨rfl, rfl, rfl⟩
  | some v => exact ⟨rfl, rfl, rfl⟩

theorem deleteAnnot_lst (db : DB) (id : String) :
    (deleteAnnot db id).2.lastSyncTime = db.lastSyncTime := by
  unfold deleteAnnot
  split
  next e db' h =>
    have hf := deleteFromA2T_frame db id
    rw [h] at hf
    exact hf.2.2
  next tags db' h =>
    have hf := deleteFromA2T_frame db id
    rw [h] at hf
    split
    next e db'' h2 =>
      have hlf := deleteTagsLoop_frame tags db' id
      rw [h2] at hlf
      exact hlf.2.2.trans hf.2.2
    next u db'' h2 =>
      have hlf := deleteTagsLoop_frame tags db' id
      rw [h2] at hlf
      exact hlf.2.2.trans hf.2.2

theorem addAnnot_lst (db : DB) (a : Annot) (annB : Batch Annot) (a2tB : Batch String) :
    (addAnnot db a annB a2tB).1.lastSyncTime = db.lastSyncTime := by
  unfold addAnnot
  split
  · rfl
  · exact (addTagsLoop_frame a.tags db a.id).2.2

theorem syncLoop_lst : ∀ (anns : List Annot) (db : DB) (added updated : Nat)
    (annB : Batch Annot) (a2tB : Batch String),
    (syncLoop db anns added updated annB a2tB).2.lastSyncTime = db.lastSyncTime := by
  intro anns
  induction anns with
  | nil => intro db a u annB a2tB; rfl
  | cons a rest ih =>
    intro db ad up annB a2tB
    unfold syncLoop
    by_cases hc : (db.annotToTags a.id).isSome
    · simp only [hc, if_true]
      cases hd : deleteAnnot db a.id with
      | mk res db' =>
        have hdl := deleteAnnot_lst db a.id
        rw [hd] at hdl
        cases res with
        | error e => exact hdl
        | ok tags =>
          have hal := addAnnot_lst db' a annB a2tB
          exact (ih _ _ _ _ _).trans (hal.trans hdl)
    · simp only [hc, if_false]
      have hal := addAnnot_lst db a annB a2tB
      exact (ih _ _ _ _ _).trans hal

theorem syncAnnots_lst (db : DB) (anns : List Annot) :
    (syncAnnots db anns).2.lastSyncTime = db.lastSyncTime := by
  unfold syncAnnots
  cases hs : syncLoop db anns 0 0 [] [] with
  | mk res db' =>
    have hl := syncLoop_lst anns db 0 0 [] []
    rw [hs] at hl
    cases res with
    | error e => exact hl
    | ok r => exact hl

/-! C5: the sync cursor. -/

/-- C5 counterexample: syncing a 2-record page with `updated` timestamps
1 < 2 from a fresh store reports added = 2 as claimed, but the persisted
cursor is the wall-clock time at the end of the run (here 5), NOT the
`updated` value 2 of the last record. -/
theorem C5_counterexample :
    (sync emptyDB [mkAnn "r1" ["x"] 1 1, mkAnn "r2" ["y"] 2 2] 5).1 = Except.ok (2, 0) ∧
    (sync emptyDB [mkAnn "r1" ["x"] 1 1, mkAnn "r2" ["y"] 2 2] 5).2.lastSyncTime = some 5 ∧
    some 5 ≠ some ((mkAnn "r2" ["y"] 2 2).updated) := by
  refine ⟨by decide, by decide, by decide⟩

/-- C5 (amended): the cursor is written exactly once, after the whole
fetched page has been applied, and is set to the wall-clock time `now`
of the run — not to the last record's `updated` value; if applying the
page fails, the cursor is left unchanged. -/
theorem C5_cursor_written_after_apply (db : DB) (fetched : List Annot) (now : Nat) :
    ((∃ r, (sync db fetched now).1 = Except.ok r) →
      (sync db fetched now).2.lastSyncTime = some now) ∧
    ((∃ e, (sync db fetched now).1 = Except.error e) →
      (sync db fetched now).2.lastSyncTime = db.lastSyncTime) := by
  unfold sync
  split
  next e db' h =>
    have hl := syncAnnots_lst db fetched
    rw [h] at hl
    exact ⟨(by rintro ⟨r, hr⟩; cases hr), fun _ => hl⟩
  next counts db' h =>
    exact ⟨fun _ => rfl, (by rintro ⟨e, he⟩; cases he)⟩

/-- C5 witness: the amended cursor behaviour at the concrete 2-record
page of the counterexample. -/
theorem C5_cursor_witness :
    ((∃ r, (sync emptyDB [mkAnn "r1" ["x"] 1 1, mkAnn "r2" ["y"] 2 2] 5).1 = Except.ok r) →
      (sync emptyDB [mkAnn "r1" ["x"] 1 1, mkAnn "r2" ["y"] 2 2] 5).2.lastSyncTime = some 5) ∧
    ((∃ e, (sync emptyDB [mkAnn "r1" ["x"] 1 1, mkAnn "r2" ["y"] 2 2] 5).1 = Except.error e) →
      (sync emptyDB [mkAnn "r1" ["x"] 1 1, mkAnn "r2" ["y"] 2 2] 5).2.lastSyncTime =
        emptyDB.lastSyncTime) :=
  C5_cursor_written_after_apply emptyDB [mkAnn "r1" ["x"] 1 1, mkAnn "r2" ["y"] 2 2] 5

/-! C4: the ignore sentinel is never consulted during sync. -/

/-- C4: sync_annotations never looks at IGNORE_TAG.  A previously synced
record that arrives carrying the ignore sentinel is upserted like any
other record: it is counted as updated (the return type has no ignored
count at all), it remains in the record store, and the sentinel itself
is stored as a literal tag in the index — contradicting both the
specification and the code's own documentation of IGNORE_TAG
("This shows up only in Hypothesis and not in gooseberry"). -/
theorem C4_ignore_sentinel_not_deleted :
    (syncAnnots (syncAnnots emptyDB [mkAnn "a1" ["x"] 1 1]).2
        [mkAnn "a1" [IGNORE_TAG] 1 2]).1 = Except.ok (0, 1) ∧
    (syncAnnots (syncAnnots emptyDB [mkAnn "a1" ["x"] 1 1]).2
        [mkAnn "a1" [IGNORE_TAG] 1 2]).2.annots "a1" = some (mkAnn "a1" [IGNORE_TAG] 1 2) ∧
    getTaggedAnnots (syncAnnots (syncAnnots emptyDB [mkAnn "a1" ["x"] 1 1]).2
        [mkAnn "a1" [IGNORE_TAG] 1 2]).2 IGNORE_TAG = Except.ok ["a1"] := by
  refine ⟨by decide, by decide, by decide⟩

/-! C2: the "and" flag of the tag filter. -/

/-- C2: with `and = true` and tags ["a", "b"], filter_annotation keeps
an annotation iff ITS tag set is a subset of the query tags — the
reverse of the claimed superset test.  Over three annotations of which
only "a1" holds both query tags, the filter keeps all three (["a"] and
[] are subsets of {"a","b"}), not exactly "a1"; and an annotation
tagged ["a","b","c"] — a strict superset, which the claim says must be
kept — is rejected. -/
theorem C2_and_filter_keeps_subsets :
    filterAnnots [] [mkAnn "a1" ["a", "b"] 1 1, mkAnn "a2" ["a"] 2 2, mkAnn "a3" [] 3 3]
        { tags := ["a", "b"], and := true } =
      [mkAnn "a1" ["a", "b"] 1 1, mkAnn "a2" ["a"] 2 2, mkAnn "a3" [] 3 3] ∧
    filterAnnot [] (mkAnn "a4" ["a", "b", "c"] 4 4) { tags := ["a", "b"], and := true } =
      false := by
  refine ⟨by decide, by decide⟩

/-! C8: empty and whitespace-only tags. -/

/-- C8 counterexample: an annotation carrying the non-whitespace tag
"a" together with the whitespace-only tag " " stores " " as a literal
key of tag_to_annotations and does NOT fold it into the EMPTY_TAG
sentinel bucket. -/
theorem C8_counterexample :
    (syncAnnots emptyDB [mkAnn "a1" ["a", " "] 1 1]).2.tagToAnnots " " = some "a1" ∧
    (syncAnnots emptyDB [mkAnn "a1" ["a", " "] 1 1]).2.tagToAnnots EMPTY_TAG = none := by
  refine ⟨by decide, by decide⟩

/-! Pointwise lemmas about merges and the add-tags loop. -/

theorem upd_self {α : Type} (m : Tree α) (k : String) (v : Option α) : upd m k v k = v :=
  if_pos rfl

theorem upd_other {α : Type} (m : Tree α) (k : String) (v : Option α) (k' : String)
    (h : k' ≠ k) : upd m k v k' = m k' :=
  if_neg h

theorem split_ids_single (s : String) (h : ';' ∉ s.data) : split_ids s = [s] := by
  unfold split_ids
  rw [splitSemi_no_semi s.data h]
  rfl

theorem merge_index_ne_empty (o : Option String) (v : String) (hv : v ≠ "") :
    merge_index o v ≠ "" := by
  cases o with
  | none => exact hv
  | some w =>
    by_cases hw : w = ""
    · rw [show merge_index (some w) v = v by simp [merge_index, hw]]
      exact hv
    · rw [show merge_index (some w) v = w ++ ";" ++ v by simp [merge_index, hw]]
      intro hcon
      have hd : (w ++ ";" ++ v).data = ("" : String).data := by rw [hcon]
      simp [String.data_append] at hd

theorem obucket_merge (o : Option String) (v : String) (ho : o ≠ some "") :
    obucket (some (merge_index o v)) = obucket o ++ split_ids v := by
  cases o with
  | none => rfl
  | some w =>
    have hw : w ≠ "" := fun h => ho (by rw [h])
    simp only [merge_index, if_neg hw, obucket]
    exact split_ids_sep w v

theorem mergeT2A_t2a_self (db : DB) (k v : String) :
    (mergeT2A db k v).tagToAnnots k = some (merge_index (db.tagToAnnots k) v) :=
  upd_self _ _ _

theorem mergeT2A_t2a_other (db : DB) (k v k' : String) (h : k' ≠ k) :
    (mergeT2A db k v).tagToAnnots k' = db.tagToAnnots k' :=
  upd_other _ _ _ _ h

theorem addTagsLoop_cons (db : DB) (t : String) (rest : List String) (id : String) :
    addTagsLoop db (t :: rest) id
      = addTagsLoop (if t = "" then db else mergeT2A db t id) rest id := rfl

theorem addTagsLoop_t2a_skip : ∀ (tags : List String) (db : DB) (id k : String),
    (∀ t ∈ tags, t = "" ∨ t ≠ k) →
    (addTagsLoop db tags id).tagToAnnots k = db.tagToAnnots k := by
  intro tags
  induction tags with
  | nil => intro db id k _; rfl
  | cons t rest ih =>
    intro db id k h
    rw [addTagsLoop_cons]
    by_cases ht : t = ""
    · rw [if_pos ht]
      exact ih db id k (fun t' ht' => h t' (by simp [ht']))
    · rw [if_neg ht]
      have hne : t ≠ k := by
        rcases h t (by simp) with h1 | h1
        · exact absurd h1 ht
        · exact h1
      rw [ih (mergeT2A db t id) id k (fun t' ht' => h t' (by simp [ht']))]
      exact mergeT2A_t2a_other db t id k (fun he => hne he.symm)

theorem addTagsLoop_t2a_nodup : ∀ (tags : List String) (db : DB) (id k : String),
    tags.Nodup → k ∈ tags → k ≠ "" →
    (addTagsLoop db tags id).tagToAnnots k = some (merge_index (db.tagToAnnots k) id) := by
  intro tags
  induction tags with
  | nil => intro db id k _ hk; cases hk
  | cons t rest ih =>
    intro db id k hnd hk hne
    rw [addTagsLoop_cons]
    rcases List.mem_cons.mp hk with he | hm
    · subst he
      rw [if_neg hne]
      rw [addTagsLoop_t2a_skip rest (mergeT2A db k id) id k
        (fun t' ht' => Or.inr (fun hcon => (List.nodup_cons.mp hnd).1 (hcon ▸ ht')))]
      exact mergeT2A_t2a_self db k id
    · have hnt : k ≠ t := fun hcon => (List.nodup_cons.mp hnd).1 (hcon ▸ hm)
      by_cases ht : t = ""
      · rw [if_pos ht]
        exact ih db id k (List.nodup_cons.mp hnd).2 hm hne
      · rw [if_neg ht]
        rw [ih (mergeT2A db t id) id k (List.nodup_cons.mp hnd).2 hm hne,
          mergeT2A_t2a_other db t id k hnt]

theorem addTagsLoop_isSome : ∀ (tags : List String) (db : DB) (id k : String),
    k ∈ tags → k ≠ "" → ((addTagsLoop db tags id).tagToAnnots k).isSome := by
  intro tags
  induction tags with
  | nil => intro db id k hk; cases hk
  | cons t rest ih =>
    intro db id k hk hne
    rw [addTagsLoop_cons]
    rcases List.mem_cons.mp hk with he | hm
    · subst he
      rw [if_neg hne]
      by_cases hr : k ∈ rest
      · exact ih (mergeT2A db k id) id k hr hne
      · rw [addTagsLoop_t2a_skip rest (mergeT2A db k id) id k
          (fun t' ht' => Or.inr (fun hcon => hr (hcon ▸ ht'))),
          mergeT2A_t2a_self db k id]
        rfl
    · by_cases ht : t = ""
      · rw [if_pos ht]; exact ih db id k hm hne
      · rw [if_neg ht]; exact ih (mergeT2A db t id) id k hm hne

theorem addAnnot_frame (db : DB) (a : Annot) (annB : Batch Annot) (a2tB : Batch String) :
    (addAnnot db a annB a2tB).1.annots = db.annots ∧
    (addAnnot db a annB a2tB).1.annotToTags = db.annotToTags ∧
    (addAnnot db a annB a2tB).1.lastSyncTime = db.lastSyncTime := by
  unfold addAnnot
  dsimp only
  split
  · exact ⟨rfl, rfl, rfl⟩
  · exact addTagsLoop_frame a.tags db a.id

theorem addAnnot_batches (db : DB) (a : Annot) (annB : Batch Annot) (a2tB : Batch String) :
    (addAnnot db a annB a2tB).2.1 = annB ++ [(a.id, some a)] ∧
    (addAnnot db a annB a2tB).2.2 = a2tB ++ [(a.id, some (join_ids a.tags))] :=
  ⟨rfl, rfl⟩

/-! C8: the empty/whitespace tag policy of add_annotation. -/

/-- C8 (amended): add_annotation never stores the empty string as a
literal key; when the tag list is empty or consists only of
whitespace-only tags the id is folded into the EMPTY_TAG sentinel
bucket; but when a non-whitespace tag is also present, every non-empty
tag — including whitespace-only tags such as " " — is stored as its own
literal key (and empty-string tags are simply skipped, not folded). -/
theorem C8_empty_tag_policy (db : DB) (a : Annot) (annB : Batch Annot) (a2tB : Batch String) :
    ((addAnnot db a annB a2tB).1.tagToAnnots "" = db.tagToAnnots "") ∧
    ((a.tags = [] ∨ ¬ a.tags.any (fun t => ¬ trimEmpty t)) →
      (addAnnot db a annB a2tB).1.tagToAnnots EMPTY_TAG =
        some (merge_index (db.tagToAnnots EMPTY_TAG) a.id)) ∧
    (¬ (a.tags = [] ∨ ¬ a.tags.any (fun t => ¬ trimEmpty t)) →
      ∀ t ∈ a.tags, t ≠ "" → ((addAnnot db a annB a2tB).1.tagToAnnots t).isSome) := by
  refine ⟨?_, ?_, ?_⟩
  · unfold addAnnot
    dsimp only
    split
    · exact mergeT2A_t2a_other db EMPTY_TAG a.id "" (by decide)
    · exact addTagsLoop_t2a_skip a.tags db a.id ""
        (fun t ht => by by_cases h : t = "" <;> simp [h])
  · intro hc
    unfold addAnnot
    dsimp only
    rw [if_pos hc]
    exact mergeT2A_t2a_self db EMPTY_TAG a.id
  · intro hc t ht hne
    unfold addAnnot
    dsimp only
    rw [if_neg hc]
    exact addTagsLoop_isSome a.tags db a.id t ht hne

/-- C8 witness: the amended policy evaluated on an annotation with tags
["a", " "] over the empty store. -/
theorem C8_empty_tag_policy_witness :
    ((addAnnot emptyDB (mkAnn "a1" ["a", " "] 1 1) [] []).1.tagToAnnots ""
        = emptyDB.tagToAnnots "") ∧
    (((mkAnn "a1" ["a", " "] 1 1).tags = [] ∨
        ¬ (mkAnn "a1" ["a", " "] 1 1).tags.any (fun t => ¬ trimEmpty t)) →
      (addAnnot emptyDB (mkAnn "a1" ["a", " "] 1 1) [] []).1.tagToAnnots EMPTY_TAG =
        some (merge_index (emptyDB.tagToAnnots EMPTY_TAG) (mkAnn "a1" ["a", " "] 1 1).id)) ∧
    (¬ ((mkAnn "a1" ["a", " "] 1 1).tags = [] ∨
        ¬ (mkAnn "a1" ["a", " "] 1 1).tags.any (fun t => ¬ trimEmpty t)) →
      ∀ t ∈ (mkAnn "a1" ["a", " "] 1 1).tags, t ≠ "" →
        ((addAnnot emptyDB (mkAnn "a1" ["a", " "] 1 1) [] []).1.tagToAnnots t).isSome) :=
  C8_empty_tag_policy emptyDB (mkAnn "a1" ["a", " "] 1 1) [] []

/-! Characterizations of sync_annotations on a one-record page. -/

theorem syncLoop_single_new (db : DB) (a : Annot) (h : db.annotToTags a.id = none) :
    syncLoop db [a] 0 0 [] [] =
      (Except.ok (1, 0, [(a.id, some a)], [(a.id, some (join_ids a.tags))]),
        (addAnnot db a [] []).1) := by
  unfold syncLoop
  rw [h]
  rfl

theorem syncAnnots_single_new (db : DB) (a : Annot) (h : db.annotToTags a.id = none) :
    syncAnnots db [a] =
      (Except.ok (1, 0),
        { annots := upd db.annots a.id (some a)
          annotToTags := upd db.annotToTags a.id (some (join_ids a.tags))
          tagToAnnots := (addAnnot db a [] []).1.tagToAnnots
          lastSyncTime := db.lastSyncTime }) := by
  have hf := addAnnot_frame db a [] []
  unfold syncAnnots
  rw [syncLoop_single_new db a h]
  dsimp only [applyBatch, List.foldl]
  rw [hf.1, hf.2.1, hf.2.2]

theorem syncLoop_single_upd (db : DB) (a : Annot) (h : (db.annotToTags a.id).isSome = true)
    (ts : List String) (hd : (deleteAnnot db a.id).1 = Except.ok ts) :
    syncLoop db [a] 0 0 [] [] =
      (Except.ok (0, 1, [(a.id, some a)], [(a.id, some (join_ids a.tags))]),
        (addAnnot (deleteAnnot db a.id).2 a [] []).1) := by
  have heq : deleteAnnot db a.id = (Except.ok ts, (deleteAnnot db a.id).2) := by
    rw [← hd]
  unfold syncLoop
  rw [h, if_pos rfl, heq]
  rfl

theorem syncLoop_single_upd_err (db : DB) (a : Annot) (h : (db.annotToTags a.id).isSome = true)
    (e : GErr) (hd : (deleteAnnot db a.id).1 = Except.error e) :
    syncLoop db [a] 0 0 [] [] = (Except.error e, (deleteAnnot db a.id).2) := by
  have heq : deleteAnnot db a.id = (Except.error e, (deleteAnnot db a.id).2) := by
    rw [← hd]
  unfold syncLoop
  rw [h, if_pos rfl, heq]

theorem syncAnnots_single_upd (db : DB) (a : Annot) (h : (db.annotToTags a.id).isSome = true)
    (ts : List String) (hd : (deleteAnnot db a.id).1 = Except.ok ts) :
    syncAnnots db [a] =
      (Except.ok (0, 1),
        { annots := upd (deleteAnnot db a.id).2.annots a.id (some a)
          annotToTags := upd (deleteAnnot db a.id).2.annotToTags a.id (some (join_ids a.tags))
          tagToAnnots := (addAnnot (deleteAnnot db a.id).2 a [] []).1.tagToAnnots
          lastSyncTime := (deleteAnnot db a.id).2.lastSyncTime }) := by
  have hf := addAnnot_frame (deleteAnnot db a.id).2 a [] []
  unfold syncAnnots
  rw [syncLoop_single_upd db a h ts hd]
  dsimp only [applyBatch, List.foldl]
  rw [hf.1, hf.2.1, hf.2.2]

theorem syncAnnots_single_upd_err (db : DB) (a : Annot) (h : (db.annotToTags a.id).isSome = true)
    (e : GErr) (hd : (deleteAnnot db a.id).1 = Except.error e) :
    (syncAnnots db [a]).1 = Except.error e := by
  unfold syncAnnots
  rw [syncLoop_single_upd_err db a h e hd]

/-! C9: untagged annotations read back as the empty tag list. -/

theorem getAnnotTags_of_empty_val (db : DB) (id : String)
    (h : db.annotToTags id = some "") : getAnnotTags db id = Except.ok [] := by
  unfold getAnnotTags
  rw [h]
  rfl

/-- C9: after a successful upsert of an annotation with no tags, the
stored encoding is the empty string and get_annotation_tags returns the
empty list — never the sentinel literal nor the raw empty encoding. -/
theorem C9_untagged_reads_back_empty (db : DB) (a : Annot) (h : a.tags = [])
    (r : Nat × Nat) (hok : (syncAnnots db [a]).1 = Except.ok r) :
    getAnnotTags (syncAnnots db [a]).2 a.id = Except.ok [] := by
  have hjoin : join_ids a.tags = "" := by rw [h]; rfl
  by_cases hc : (db.annotToTags a.id).isSome = true
  · cases hd : (deleteAnnot db a.id).1 with
    | error e =>
      rw [syncAnnots_single_upd_err db a hc e hd] at hok
      cases hok
    | ok ts =>
      apply getAnnotTags_of_empty_val
      rw [syncAnnots_single_upd db a hc ts hd]
      show upd (deleteAnnot db a.id).2.annotToTags a.id (some (join_ids a.tags)) a.id = some ""
      rw [upd_self, hjoin]
  · have hnone : db.annotToTags a.id = none := by
      cases hx : db.annotToTags a.id with
      | none => rfl
      | some v => rw [hx] at hc; simp at hc
    apply getAnnotTags_of_empty_val
    rw [syncAnnots_single_new db a hnone]
    show upd db.annotToTags a.id (some (join_ids a.tags)) a.id = some ""
    rw [upd_self, hjoin]

/-- C9 witness: upserting an untagged annotation into the empty store
and reading its tags back. -/
theorem C9_untagged_witness :
    getAnnotTags (syncAnnots emptyDB [mkAnn "u1" [] 1 1]).2 (mkAnn "u1" [] 1 1).id =
      Except.ok [] :=
  C9_untagged_reads_back_empty emptyDB (mkAnn "u1" [] 1 1) (by decide) (1, 0) (by decide)

/-! Lemmas about delete_from_tag_to_annotations_tree. -/

theorem deleteFromT2A_some (db : DB) (k id w : String) (h : db.tagToAnnots k = some w) :
    deleteFromT2A db k id =
      (Except.ok (), { db with tagToAnnots := upd db.tagToAnnots k (filterVal w id) }) := by
  unfold deleteFromT2A filterVal
  rw [h]
  dsimp only
  split <;> rfl

theorem deleteFromT2A_none (db : DB) (k id : String) (h : db.tagToAnnots k = none) :
    deleteFromT2A db k id = (Except.error (GErr.tagNotFound k), db) := by
  unfold deleteFromT2A
  rw [h]

/-! C7: failure behaviour of delete_annotations. -/

theorem deleteAnnotsTagLoop_frame : ∀ (tags : List String) (db : DB) (id : String),
    (deleteAnnotsTagLoop db tags id).2.annots = db.annots ∧
    (deleteAnnotsTagLoop db tags id).2.annotToTags = db.annotToTags ∧
    (deleteAnnotsTagLoop db tags id).2.lastSyncTime = db.lastSyncTime := by
  intro tags
  induction tags with
  | nil => intro db id; exact ⟨rfl, rfl, rfl⟩
  | cons t rest ih =>
    intro db id
    unfold deleteAnnotsTagLoop
    cases hd : deleteFromT2A db t id with
    | mk res db' =>
      have hf := deleteFromT2A_frame db t id
      rw [hd] at hf
      cases res with
      | error e => exact hf
      | ok u =>
        obtain ⟨h1, h2, h3⟩ := ih db' id
        exact ⟨h1.trans hf.1, h2.trans hf.2.1, h3.trans hf.2.2⟩

theorem deleteAnnotsLoop_frame : ∀ (ids : List String) (db : DB) (a2tB : Batch String)
    (annB : Batch Annot) (tagsList : List (List String)),
    (deleteAnnotsLoop db ids a2tB annB tagsList).2.annots = db.annots ∧
    (deleteAnnotsLoop db ids a2tB annB tagsList).2.annotToTags = db.annotToTags ∧
    (deleteAnnotsLoop db ids a2tB annB tagsList).2.lastSyncTime = db.lastSyncTime := by
  intro ids
  induction ids with
  | nil => intro db a2tB annB tl; exact ⟨rfl, rfl, rfl⟩
  | cons id rest ih =>
    intro db a2tB annB tl
    unfold deleteAnnotsLoop
    split
    · exact ⟨rfl, rfl, rfl⟩
    next tags heq =>
      split
      next e db' h2 =>
        have hf := deleteAnnotsTagLoop_frame tags db id
        rw [h2] at hf
        exact hf
      next u db' h2 =>
        have hf := deleteAnnotsTagLoop_frame tags db id
        rw [h2] at hf
        obtain ⟨h1, h2', h3⟩ := ih db' (a2tB ++ [(id, none)]) (annB ++ [(id, none)]) (tl ++ [tags])
        exact ⟨h1.trans hf.1, h2'.trans hf.2.1, h3.trans hf.2.2⟩

/-- C7 counterexample: deleting the batch ["a1", "zz"] where "a1"
exists (tagged "x") and "zz" does not fails with AnnotationNotFound —
but the tag→annotations bucket of "x" has already been removed, while
"a1" itself is still present in the record store and in
annotation→tags: the failed batch is partially applied, not left
unapplied. -/
theorem C7_counterexample :
    (deleteAnnots (syncAnnots emptyDB [mkAnn "a1" ["x"] 1 1]).2 ["a1", "zz"]).1 =
      Except.error (GErr.annotNotFound "zz") ∧
    (syncAnnots emptyDB [mkAnn "a1" ["x"] 1 1]).2.tagToAnnots "x" = some "a1" ∧
    (deleteAnnots (syncAnnots emptyDB [mkAnn "a1" ["x"] 1 1]).2 ["a1", "zz"]).2.tagToAnnots "x" =
      none ∧
    (deleteAnnots (syncAnnots emptyDB [mkAnn "a1" ["x"] 1 1]).2 ["a1", "zz"]).2.annotToTags "a1" =
      some "x" := by
  refine ⟨by decide, by decide, by decide, by decide⟩

/-- C7 (amended): when delete_annotations fails, the record store and
the annotation→tags mapping are untouched for every id (their removals
are batched and the batches are discarded on error), but the eager
tag→annotations removals performed for ids processed before the failure
persist — the batch is atomic only for those two trees, not for
tag→annotations. -/
theorem C7_failed_batch_leaves_records (db : DB) (ids : List String) (e : GErr)
    (h : (deleteAnnots db ids).1 = Except.error e) :
    (∀ k, (deleteAnnots db ids).2.annots k = db.annots k) ∧
    (∀ k, (deleteAnnots db ids).2.annotToTags k = db.annotToTags k) := by
  unfold deleteAnnots at h ⊢
  cases hl : deleteAnnotsLoop db ids [] [] [] with
  | mk res db' =>
    have hf := deleteAnnotsLoop_frame ids db [] [] []
    rw [hl] at hf
    cases res with
    | error e2 =>
      exact ⟨fun k => by rw [hf.1], fun k => by rw [hf.2.1]⟩
    | ok r =>
      rw [hl] at h
      cases h

/-- C7 witness: the amended statement at the failing batch of the
counterexample. -/
theorem C7_failed_batch_witness :
    (∀ k, (deleteAnnots (syncAnnots emptyDB [mkAnn "a1" ["x"] 1 1]).2 ["a1", "zz"]).2.annots k =
      (syncAnnots emptyDB [mkAnn "a1" ["x"] 1 1]).2.annots k) ∧
    (∀ k, (deleteAnnots (syncAnnots emptyDB [mkAnn "a1" ["x"] 1 1]).2
        ["a1", "zz"]).2.annotToTags k =
      (syncAnnots emptyDB [mkAnn "a1" ["x"] 1 1]).2.annotToTags k) :=
  C7_failed_batch_leaves_records (syncAnnots emptyDB [mkAnn "a1" ["x"] 1 1]).2 ["a1", "zz"]
    (GErr.annotNotFound "zz") (by decide)

/-! Pointwise characterizations of the two tag loops (duplicate-free
tag lists). -/

theorem addAnnot_db_of_not (db : DB) (a : Annot) (annB : Batch Annot) (a2tB : Batch String)
    (hc : ¬ (a.tags = [] ∨ ¬ a.tags.any (fun t => ¬ trimEmpty t))) :
    (addAnnot db a annB a2tB).1 = addTagsLoop db a.tags a.id := by
  unfold addAnnot
  dsimp only
  rw [if_neg hc]

theorem addAnnot_db_of_sentinel (db : DB) (a : Annot) (annB : Batch Annot) (a2tB : Batch String)
    (hc : a.tags = [] ∨ ¬ a.tags.any (fun t => ¬ trimEmpty t)) :
    (addAnnot db a annB a2tB).1 = mergeT2A db EMPTY_TAG a.id := by
  unfold addAnnot
  dsimp only
  rw [if_pos hc]

theorem deleteFromA2T_some (db : DB) (id v : String) (h : db.annotToTags id = some v) :
    deleteFromA2T db id =
      (Except.ok (split_ids v), { db with annotToTags := upd db.annotToTags id none }) := by
  unfold deleteFromA2T
  rw [h]

theorem deleteFromA2T_none (db : DB) (id : String) (h : db.annotToTags id = none) :
    deleteFromA2T db id = (Except.error (GErr.annotNotFound id), db) := by
  unfold deleteFromA2T
  rw [h]

theorem filterVal_merge (o : Option String) (id : String) (hid : ';' ∉ id.data)
    (ho : o ≠ some "") (hmem : id ∉ obucket o) :
    filterVal (merge_index o id) id = o := by
  cases o with
  | none =>
    show filterVal id id = none
    unfold filterVal
    rw [split_ids_single id hid]
    simp
  | some w =>
    have hw : w ≠ "" := fun h => ho (by rw [h])
    have hmerge : merge_index (some w) id = w ++ ";" ++ id := by
      simp [merge_index, hw]
    have hfsplit : (split_ids w).filter (fun i => i ≠ id) = split_ids w := by
      apply List.filter_eq_self.mpr
      intro x hx
      simp only [decide_eq_true_eq]
      intro hcon
      exact hmem (by simpa [obucket, hcon] using hx)
    unfold filterVal
    rw [hmerge, split_ids_sep, split_ids_single id hid]
    have : (split_ids w ++ [id]).filter (fun i => i ≠ id) = split_ids w := by
      rw [List.filter_append, hfsplit]
      simp
    rw [this, if_neg (split_ids_ne_nil w), join_ids_split_ids]

theorem addTagsLoop_pointwise (tags : List String) (db : DB) (id k : String)
    (hnd : tags.Nodup) :
    (addTagsLoop db tags id).tagToAnnots k =
      if k ∈ tags ∧ k ≠ "" then some (merge_index (db.tagToAnnots k) id)
      else db.tagToAnnots k := by
  by_cases hk : k ∈ tags ∧ k ≠ ""
  · rw [if_pos hk]
    exact addTagsLoop_t2a_nodup tags db id k hnd hk.1 hk.2
  · rw [if_neg hk]
    apply addTagsLoop_t2a_skip
    intro t ht
    by_cases hte : t = ""
    · exact Or.inl hte
    · refine Or.inr fun hcon => hk ⟨hcon ▸ ht, hcon ▸ hte⟩

theorem deleteTagsLoop_pointwise : ∀ (tags : List String) (db : DB) (id : String),
    tags.Nodup → (∀ t ∈ tags, t ≠ "" → (db.tagToAnnots t).isSome) →
    (deleteTagsLoop db tags id).1 = Except.ok () ∧
    ∀ k, (deleteTagsLoop db tags id).2.tagToAnnots k =
      if k ∈ tags ∧ k ≠ "" then (db.tagToAnnots k).bind (fun w => filterVal w id)
      else db.tagToAnnots k := by
  intro tags
  induction tags with
  | nil =>
    intro db id _ _
    refine ⟨rfl, fun k => ?_⟩
    simp [deleteTagsLoop]
  | cons t rest ih =>
    intro db id hnd hsome
    unfold deleteTagsLoop
    by_cases hte : t = ""
    · rw [if_pos hte]
      obtain ⟨hok, hpt⟩ := ih db id (List.nodup_cons.mp hnd).2
        (fun r hr => hsome r (List.mem_cons_of_mem t hr))
      refine ⟨hok, fun k => ?_⟩
      rw [hpt k]
      by_cases hk : k ∈ rest ∧ k ≠ ""
      · rw [if_pos hk, if_pos ⟨List.mem_cons_of_mem t hk.1, hk.2⟩]
      · rw [if_neg hk, if_neg]
        intro hcon
        rcases List.mem_cons.mp hcon.1 with he | hm
        · exact hcon.2 (he.trans hte)
        · exact hk ⟨hm, hcon.2⟩
    · rw [if_neg hte]
      have hs := hsome t (List.mem_cons_self t rest) hte
      obtain ⟨w, hw⟩ := Option.isSome_iff_exists.mp hs
      rw [deleteFromT2A_some db t id w hw]
      have htnotrest : t ∉ rest := (List.nodup_cons.mp hnd).1
      set db' : DB := { db with tagToAnnots := upd db.tagToAnnots t (filterVal w id) }
        with hdb'
      have hsome' : ∀ r ∈ rest, r ≠ "" → (db'.tagToAnnots r).isSome := by
        intro r hr hrne
        have : db'.tagToAnnots r = db.tagToAnnots r :=
          upd_other _ _ _ _ (fun hcon => htnotrest (hcon ▸ hr))
        rw [this]
        exact hsome r (List.mem_cons_of_mem t hr) hrne
      obtain ⟨hok, hpt⟩ := ih db' id (List.nodup_cons.mp hnd).2 hsome'
      refine ⟨hok, fun k => ?_⟩
      rw [hpt k]
      by_cases hk : k = t
      · subst hk
        rw [if_neg (fun hcon => htnotrest hcon.1),
          if_pos ⟨List.mem_cons_self k rest, hte⟩]
        show upd db.tagToAnnots k (filterVal w id) k = _
        rw [upd_self, hw]
        rfl
      · have hdbk : db'.tagToAnnots k = db.tagToAnnots k := upd_other _ _ _ _ hk
        by_cases hkr : k ∈ rest ∧ k ≠ ""
        · rw [if_pos hkr, if_pos ⟨List.mem_cons_of_mem t hkr.1, hkr.2⟩, hdbk]
        · rw [if_neg hkr, hdbk, if_neg]
          intro hcon
          rcases List.mem_cons.mp hcon.1 with he | hm
          · exact hk he
          · exact hkr ⟨hm, hcon.2⟩

/-! C6: the upsert/delete round trip. -/

/-- C6 counterexample: for an annotation with no tags the round trip
does NOT restore the pre-upsert state — the delete succeeds and removes
the record, but the id stays behind in the EMPTY_TAG sentinel bucket of
tag→annotations (the delete loop skips the empty tag and never cleans
the sentinel bucket). -/
theorem C6_counterexample :
    (deleteAnnot (syncAnnots emptyDB [mkAnn "u1" [] 1 1]).2 "u1").1 = Except.ok [""] ∧
    (deleteAnnot (syncAnnots emptyDB [mkAnn "u1" [] 1 1]).2 "u1").2.annots "u1" = none ∧
    (deleteAnnot (syncAnnots emptyDB [mkAnn "u1" [] 1 1]).2 "u1").2.tagToAnnots EMPTY_TAG =
      some "u1" ∧
    emptyDB.tagToAnnots EMPTY_TAG = none := by
  refine ⟨by decide, by decide, by decide, by decide⟩

/-- C6 (amended): for every annotation `a` with a well-formed id, whose
tags are duplicate-free, non-empty, semicolon-free and not all
whitespace-only, and that leaves no trace in the starting store,
upsert(a) followed by delete(a.id) succeeds and restores the pre-upsert
state exactly — all three trees pointwise — and a subsequent get
signals AnnotationNotFound. -/
theorem C6_roundtrip (s0 : DB) (a : Annot)
    (hid : GoodStr a.id)
    (hnd : a.tags.Nodup)
    (htags : ∀ t ∈ a.tags, GoodStr t)
    (hws : ∃ t ∈ a.tags, trimEmpty t = false)
    (hnt : NoTrace s0 a.id)
    (hb : BucketsNonempty s0) :
    (deleteAnnot (syncAnnots s0 [a]).2 a.id).1 = Except.ok a.tags ∧
    (∀ k, (deleteAnnot (syncAnnots s0 [a]).2 a.id).2.annots k = s0.annots k) ∧
    (∀ k, (deleteAnnot (syncAnnots s0 [a]).2 a.id).2.annotToTags k = s0.annotToTags k) ∧
    (∀ k, (deleteAnnot (syncAnnots s0 [a]).2 a.id).2.tagToAnnots k = s0.tagToAnnots k) ∧
    getAnnot (deleteAnnot (syncAnnots s0 [a]).2 a.id).2 a.id =
      Except.error (GErr.annotNotFound a.id) := by
  obtain ⟨tw, htw, htwf⟩ := hws
  have htagsne : a.tags ≠ [] := fun h => by rw [h] at htw; cases htw
  have hsemi : ∀ t ∈ a.tags, ';' ∉ t.data := fun t ht => (htags t ht).2
  have hjv : split_ids (join_ids a.tags) = a.tags := split_ids_join_ids a.tags htagsne hsemi
  have hcond : ¬ (a.tags = [] ∨ ¬ a.tags.any (fun t => ¬ trimEmpty t)) := by
    rintro (h | h)
    · exact htagsne h
    · exact h (List.any_eq_true.mpr ⟨tw, htw, by simp [htwf]⟩)
  have hnew := syncAnnots_single_new s0 a hnt.1
  have hdb1a2t : (syncAnnots s0 [a]).2.annotToTags
      = upd s0.annotToTags a.id (some (join_ids a.tags)) := by rw [hnew]
  have hdb1ann : (syncAnnots s0 [a]).2.annots = upd s0.annots a.id (some a) := by rw [hnew]
  have hdb1t2a : (syncAnnots s0 [a]).2.tagToAnnots
      = (addTagsLoop s0 a.tags a.id).tagToAnnots := by
    rw [hnew]
    show (addAnnot s0 a [] []).1.tagToAnnots = _
    rw [addAnnot_db_of_not s0 a [] [] hcond]
  -- the state after delete_from_annotation_to_tags_tree
  have hA2T := deleteFromA2T_some (syncAnnots s0 [a]).2 a.id (join_ids a.tags)
    (by rw [hdb1a2t]; exact upd_self _ _ _)
  unfold deleteAnnot
  rw [hA2T]
  dsimp only
  rw [hjv]
  set dbm : DB := { (syncAnnots s0 [a]).2 with
    annotToTags := upd (syncAnnots s0 [a]).2.annotToTags a.id none } with hdbm
  -- the delete loop restores every bucket
  have hsome : ∀ t ∈ a.tags, t ≠ "" → (dbm.tagToAnnots t).isSome := by
    intro t ht htne
    show ((syncAnnots s0 [a]).2.tagToAnnots t).isSome
    rw [hdb1t2a, addTagsLoop_t2a_nodup a.tags s0 a.id t hnd ht htne]
    rfl
  obtain ⟨hok, hpt⟩ := deleteTagsLoop_pointwise a.tags dbm a.id hnd hsome
  have heqloop : deleteTagsLoop dbm a.tags a.id
      = (Except.ok (), (deleteTagsLoop dbm a.tags a.id).2) := by rw [← hok]
  rw [heqloop]
  dsimp only
  have hframe := deleteTagsLoop_frame a.tags dbm a.id
  rw [heqloop] at hframe
  refine ⟨rfl, ?_, ?_, ?_, ?_⟩
  · intro k
    show upd (deleteTagsLoop dbm a.tags a.id).2.annots a.id none k = s0.annots k
    rw [hframe.1]
    show upd dbm.annots a.id none k = s0.annots k
    by_cases hk : k = a.id
    · subst hk
      rw [upd_self, hnt.2.1]
    · rw [upd_other _ _ _ _ hk]
      show (syncAnnots s0 [a]).2.annots k = s0.annots k
      rw [hdb1ann, upd_other _ _ _ _ hk]
  · intro k
    show (deleteTagsLoop dbm a.tags a.id).2.annotToTags k = s0.annotToTags k
    rw [hframe.2.1]
    show upd (syncAnnots s0 [a]).2.annotToTags a.id none k = s0.annotToTags k
    by_cases hk : k = a.id
    · subst hk
      rw [upd_self, hnt.1]
    · rw [upd_other _ _ _ _ hk, hdb1a2t, upd_other _ _ _ _ hk]
  · intro k
    show (deleteTagsLoop dbm a.tags a.id).2.tagToAnnots k = s0.tagToAnnots k
    rw [hpt k]
    by_cases hk : k ∈ a.tags ∧ k ≠ ""
    · rw [if_pos hk]
      show ((dbm.tagToAnnots k).bind fun w => filterVal w a.id) = s0.tagToAnnots k
      have : dbm.tagToAnnots k = some (merge_index (s0.tagToAnnots k) a.id) := by
        show (syncAnnots s0 [a]).2.tagToAnnots k = _
        rw [hdb1t2a, addTagsLoop_t2a_nodup a.tags s0 a.id k hnd hk.1 hk.2]
      rw [this]
      show filterVal (merge_index (s0.tagToAnnots k) a.id) a.id = s0.tagToAnnots k
      apply filterVal_merge _ _ hid.2
      · intro hcon
        exact hb k "" hcon rfl
      · exact hnt.2.2 k
    · rw [if_neg hk]
      show (syncAnnots s0 [a]).2.tagToAnnots k = s0.tagToAnnots k
      rw [hdb1t2a]
      apply addTagsLoop_t2a_skip
      intro t ht
      by_cases hte : t = ""
      · exact Or.inl hte
      · refine Or.inr fun hcon => hk ⟨hcon ▸ ht, hcon ▸ hte⟩
  · show getAnnot
        { (deleteTagsLoop dbm a.tags a.id).2 with
          annots := upd (deleteTagsLoop dbm a.tags a.id).2.annots a.id none } a.id
        = Except.error (GErr.annotNotFound a.id)
    unfold getAnnot
    rw [show ({ (deleteTagsLoop dbm a.tags a.id).2 with
          annots := upd (deleteTagsLoop dbm a.tags a.id).2.annots a.id none } : DB).annots a.id
        = none from upd_self _ _ _]

/-- C6 witness: the amended round trip at an annotation tagged
["x", "y"] over the empty store. -/
theorem C6_roundtrip_witness :
    (deleteAnnot (syncAnnots emptyDB [mkAnn "a1" ["x", "y"] 1 1]).2
        (mkAnn "a1" ["x", "y"] 1 1).id).1 = Except.ok (mkAnn "a1" ["x", "y"] 1 1).tags ∧
    (∀ k, (deleteAnnot (syncAnnots emptyDB [mkAnn "a1" ["x", "y"] 1 1]).2
        (mkAnn "a1" ["x", "y"] 1 1).id).2.annots k = emptyDB.annots k) ∧
    (∀ k, (deleteAnnot (syncAnnots emptyDB [mkAnn "a1" ["x", "y"] 1 1]).2
        (mkAnn "a1" ["x", "y"] 1 1).id).2.annotToTags k = emptyDB.annotToTags k) ∧
    (∀ k, (deleteAnnot (syncAnnots emptyDB [mkAnn "a1" ["x", "y"] 1 1]).2
        (mkAnn "a1" ["x", "y"] 1 1).id).2.tagToAnnots k = emptyDB.tagToAnnots k) ∧
    getAnnot (deleteAnnot (syncAnnots emptyDB [mkAnn "a1" ["x", "y"] 1 1]).2
        (mkAnn "a1" ["x", "y"] 1 1).id).2 (mkAnn "a1" ["x", "y"] 1 1).id =
      Except.error (GErr.annotNotFound (mkAnn "a1" ["x", "y"] 1 1).id) :=
  C6_roundtrip emptyDB (mkAnn "a1" ["x", "y"] 1 1)
    (by refine ⟨by decide, by decide⟩)
    (by decide)
    (by intro t ht; fin_cases ht <;> exact ⟨by decide, by decide⟩)
    (⟨"x", by decide, by decide⟩)
    (⟨rfl, rfl, fun k => List.not_mem_nil _⟩)
    (fun k w h => Option.noConfusion h)

/-! Helper lemmas for upsert idempotence. -/

theorem join_ids_ne_empty (q : List String) (hq : q ≠ []) (hmem : "" ∉ q) :
    join_ids q ≠ "" := by
  cases q with
  | nil => exact absurd rfl hq
  | cons x rest =>
    cases rest with
    | nil =>
      have hx : x ≠ "" := fun h => hmem (by simp [h])
      intro hcon
      exact hx hcon
    | cons y t =>
      intro hcon
      have h2 := congrArg String.data hcon
      simp [join_ids, joinSemi_cons_head, joinSemi] at h2

theorem mem_append_singleton_iff (A : List String) (id : String) (hA : id ∈ A) (i : String) :
    i ∈ A ++ [id] ↔ i ∈ A := by
  constructor
  · intro h
    rcases List.mem_append.mp h with h | h
    · exact h
    · rw [List.mem_singleton.mp h]; exact hA
  · intro h
    exact List.mem_append.mpr (Or.inl h)

theorem obucket_some_merge_self (o : Option String) (id : String) (hid : GoodStr id)
    (ho : o ≠ some "") :
    obucket (some (merge_index o id)) = obucket o ++ [id] := by
  rw [obucket_merge o id ho, split_ids_single id hid.2]

theorem idem_bucket (o : Option String) (id : String) (hid : GoodStr id)
    (ho : "" ∉ obucket o) (i : String) :
    i ∈ obucket (some (merge_index (filterVal (merge_index o id) id) id)) ↔
      i ∈ obucket (some (merge_index o id)) := by
  have hone : o ≠ some "" := by
    intro h
    apply ho
    rw [h]
    exact List.mem_singleton.mpr rfl
  have hm1 : obucket (some (merge_index o id)) = obucket o ++ [id] :=
    obucket_some_merge_self o id hid hone
  have hfv : filterVal (merge_index o id) id =
      (if (obucket o).filter (fun i => i ≠ id) = [] then none
       else some (join_ids ((obucket o).filter (fun i => i ≠ id)))) := by
    unfold filterVal
    have hsplit : split_ids (merge_index o id) = obucket o ++ [id] := hm1
    rw [hsplit, List.filter_append]
    simp
  by_cases hq : (obucket o).filter (fun i => i ≠ id) = []
  · rw [hfv, if_pos hq]
    have hsub : ∀ x ∈ obucket o, x = id := by
      intro x hx
      by_contra hcon
      have : x ∈ (obucket o).filter (fun i => i ≠ id) :=
        List.mem_filter.mpr ⟨hx, by simpa using hcon⟩
      rw [hq] at this
      cases this
    rw [show obucket (some (merge_index none id)) = [id] by
      rw [obucket_some_merge_self none id hid (by simp)]; rfl]
    rw [hm1]
    constructor
    · intro h
      exact List.mem_append.mpr (Or.inr h)
    · intro h
      rcases List.mem_append.mp h with h | h
      · rw [hsub i h]; exact List.mem_singleton.mpr rfl
      · exact h
  · rw [hfv, if_neg hq]
    set q := (obucket o).filter (fun i => i ≠ id) with hqdef
    have hqsub : ∀ x ∈ q, x ∈ obucket o := fun x hx => (List.mem_filter.mp hx).1
    have hqne : "" ∉ q := fun h => ho (hqsub "" h)
    have hjq : join_ids q ≠ "" := join_ids_ne_empty q hq hqne
    have hqsemi : ∀ x ∈ q, ';' ∉ x.data := by
      intro x hx
      have : x ∈ obucket o ++ [id] := List.mem_append.mpr (Or.inl (hqsub x hx))
      rw [← hm1] at this
      exact mem_split_ids_no_semi (merge_index o id) x this
    have hsplitq : split_ids (join_ids q) = q := split_ids_join_ids q hq hqsemi
    have : obucket (some (merge_index (some (join_ids q)) id)) = q ++ [id] := by
      rw [obucket_some_merge_self (some (join_ids q)) id hid
        (fun h => hjq (Option.some_injective _ h)), obucket, hsplitq]
    rw [this, hm1]
    constructor
    · intro h
      rcases List.mem_append.mp h with h | h
      · exact List.mem_append.mpr (Or.inl (hqsub i h))
      · exact List.mem_append.mpr (Or.inr h)
    · intro h
      rcases List.mem_append.mp h with h | h
      · by_cases hcon : i = id
        · exact List.mem_append.mpr (Or.inr (by simp [hcon]))
        · exact List.mem_append.mpr (Or.inl (List.mem_filter.mpr ⟨h, by simpa using hcon⟩))
      · exact List.mem_append.mpr (Or.inr h)

theorem deleteAnnot_spec (db : DB) (id v : String) (h : db.annotToTags id = some v)
    (hok : (deleteTagsLoop { db with annotToTags := upd db.annotToTags id none }
        (split_ids v) id).1 = Except.ok ()) :
    deleteAnnot db id =
      (Except.ok (split_ids v),
        deleteFromAnnots
          (deleteTagsLoop { db with annotToTags := upd db.annotToTags id none }
            (split_ids v) id).2 id) := by
  unfold deleteAnnot
  rw [deleteFromA2T_some db id v h]
  dsimp only
  have heq : deleteTagsLoop { db with annotToTags := upd db.annotToTags id none }
        (split_ids v) id
      = (Except.ok (), (deleteTagsLoop { db with annotToTags := upd db.annotToTags id none }
        (split_ids v) id).2) := by
    rw [← hok]
  rw [heq]

/-! C3: idempotence of upsert. -/

/-- C3 counterexample: for an annotation carrying a duplicate tag
["a", "a"] the first upsert succeeds but the second one FAILS with
TagNotFound (the delete pass empties and removes the bucket on the
first occurrence and then looks it up again for the second), leaving a
state whose tags_of read-back errors — not the same visible state as a
single upsert. -/
theorem C3_counterexample :
    (syncAnnots emptyDB [mkAnn "a1" ["a", "a"] 1 1]).1 = Except.ok (1, 0) ∧
    (syncAnnots (syncAnnots emptyDB [mkAnn "a1" ["a", "a"] 1 1]).2
        [mkAnn "a1" ["a", "a"] 1 1]).1 = Except.error (GErr.tagNotFound "a") ∧
    getAnnotTags (syncAnnots (syncAnnots emptyDB [mkAnn "a1" ["a", "a"] 1 1]).2
        [mkAnn "a1" ["a", "a"] 1 1]).2 "a1" = Except.error (GErr.annotNotFound "a1") ∧
    getAnnotTags (syncAnnots emptyDB [mkAnn "a1" ["a", "a"] 1 1]).2 "a1" =
      Except.ok ["a", "a"] := by
  refine ⟨by decide, by decide, by decide, by decide⟩

/-- C3 (amended): for every annotation with a well-formed id and
duplicate-free, well-formed tags (empty tag list allowed, but not an
all-whitespace one), not present in the starting store, a second upsert
succeeds (counted as an update) and yields the same visible state as
the first: identical record store and annotation→tags entries, and
tag→annotations buckets existing for the same tags with the same id
sets. -/
theorem C3_upsert_idempotent (s0 : DB) (a : Annot)
    (hid : GoodStr a.id)
    (hnd : a.tags.Nodup)
    (htags : ∀ t ∈ a.tags, GoodStr t)
    (hws : a.tags = [] ∨ ∃ t ∈ a.tags, trimEmpty t = false)
    (hnew0 : s0.annotToTags a.id = none)
    (hgb : GoodBuckets s0) :
    (syncAnnots (syncAnnots s0 [a]).2 [a]).1 = Except.ok (0, 1) ∧
    SameVisible (syncAnnots (syncAnnots s0 [a]).2 [a]).2 (syncAnnots s0 [a]).2 := by
  have hnew := syncAnnots_single_new s0 a hnew0
  have hdb1a2t : (syncAnnots s0 [a]).2.annotToTags
      = upd s0.annotToTags a.id (some (join_ids a.tags)) := by rw [hnew]
  have hdb1ann : (syncAnnots s0 [a]).2.annots = upd s0.annots a.id (some a) := by rw [hnew]
  have hself : (syncAnnots s0 [a]).2.annotToTags a.id = some (join_ids a.tags) := by
    rw [hdb1a2t]; exact upd_self _ _ _
  have hisSome : ((syncAnnots s0 [a]).2.annotToTags a.id).isSome = true := by
    rw [hself]; rfl
  by_cases h0 : a.tags = []
  · -- sentinel path: the annotation is untagged
    have hcondS : a.tags = [] ∨ ¬ a.tags.any (fun t => ¬ trimEmpty t) := Or.inl h0
    have hdb1t2a : (syncAnnots s0 [a]).2.tagToAnnots
        = upd s0.tagToAnnots EMPTY_TAG
            (some (merge_index (s0.tagToAnnots EMPTY_TAG) a.id)) := by
      rw [hnew]
      show (addAnnot s0 a [] []).1.tagToAnnots = _
      rw [addAnnot_db_of_sentinel s0 a [] [] hcondS]
      rfl
    have hjv : split_ids (join_ids a.tags) = [""] := by rw [h0]; rfl
    have hloopok : (deleteTagsLoop
        { (syncAnnots s0 [a]).2 with
          annotToTags := upd (syncAnnots s0 [a]).2.annotToTags a.id none }
        (split_ids (join_ids a.tags)) a.id).1 = Except.ok () := by
      rw [hjv]
      rfl
    have hdel := deleteAnnot_spec (syncAnnots s0 [a]).2 a.id (join_ids a.tags) hself hloopok
    have hdel1 : (deleteAnnot (syncAnnots s0 [a]).2 a.id).1
        = Except.ok (split_ids (join_ids a.tags)) := by rw [hdel]
    have hupd := syncAnnots_single_upd (syncAnnots s0 [a]).2 a hisSome _ hdel1
    have hD : (deleteAnnot (syncAnnots s0 [a]).2 a.id).2
        = deleteFromAnnots
            (deleteTagsLoop
              { (syncAnnots s0 [a]).2 with
                annotToTags := upd (syncAnnots s0 [a]).2.annotToTags a.id none }
              (split_ids (join_ids a.tags)) a.id).2 a.id := by rw [hdel]
    have hLstate : (deleteTagsLoop
        { (syncAnnots s0 [a]).2 with
          annotToTags := upd (syncAnnots s0 [a]).2.annotToTags a.id none }
        (split_ids (join_ids a.tags)) a.id).2
        = { (syncAnnots s0 [a]).2 with
            annotToTags := upd (syncAnnots s0 [a]).2.annotToTags a.id none } := by
      rw [hjv]
      rfl
    refine ⟨by rw [hupd], ?_, ?_, ?_, ?_⟩
    · intro k
      rw [hupd]
      show upd (deleteAnnot (syncAnnots s0 [a]).2 a.id).2.annots a.id (some a) k
          = (syncAnnots s0 [a]).2.annots k
      rw [hD, hLstate]
      by_cases hk : k = a.id
      · subst hk
        rw [upd_self, hdb1ann, upd_self]
      · rw [upd_other _ _ _ _ hk]
        show upd (syncAnnots s0 [a]).2.annots a.id none k = _
        rw [upd_other _ _ _ _ hk]
    · intro k
      rw [hupd]
      show upd (deleteAnnot (syncAnnots s0 [a]).2 a.id).2.annotToTags a.id
            (some (join_ids a.tags)) k
          = (syncAnnots s0 [a]).2.annotToTags k
      rw [hD, hLstate]
      by_cases hk : k = a.id
      · subst hk
        rw [upd_self, hself]
      · rw [upd_other _ _ _ _ hk]
        show upd (syncAnnots s0 [a]).2.annotToTags a.id none k = _
        rw [upd_other _ _ _ _ hk]
    · intro k
      rw [hupd]
      show ((addAnnot (deleteAnnot (syncAnnots s0 [a]).2 a.id).2 a [] []).1.tagToAnnots k).isSome
          = ((syncAnnots s0 [a]).2.tagToAnnots k).isSome
      rw [addAnnot_db_of_sentinel _ a [] [] hcondS, hD, hLstate]
      by_cases hk : k = EMPTY_TAG
      · subst hk
        rw [mergeT2A_t2a_self]
        show true = ((syncAnnots s0 [a]).2.tagToAnnots EMPTY_TAG).isSome
        rw [hdb1t2a, upd_self]
        rfl
      · rw [mergeT2A_t2a_other _ _ _ _ hk]
        rfl
    · intro k i
      rw [hupd]
      show i ∈ obucket ((addAnnot (deleteAnnot (syncAnnots s0 [a]).2 a.id).2
            a [] []).1.tagToAnnots k)
          ↔ i ∈ obucket ((syncAnnots s0 [a]).2.tagToAnnots k)
      rw [addAnnot_db_of_sentinel _ a [] [] hcondS, hD, hLstate]
      by_cases hk : k = EMPTY_TAG
      · subst hk
        rw [mergeT2A_t2a_self]
        show i ∈ obucket
            (some (merge_index ((syncAnnots s0 [a]).2.tagToAnnots EMPTY_TAG) a.id))
            ↔ i ∈ obucket ((syncAnnots s0 [a]).2.tagToAnnots EMPTY_TAG)
        rw [hdb1t2a, upd_self]
        have hs0ne : s0.tagToAnnots EMPTY_TAG ≠ some "" := by
          intro hcon
          exact hgb EMPTY_TAG (by rw [bucketIds, hcon]; exact List.mem_singleton.mpr rfl)
        have hinner : merge_index (s0.tagToAnnots EMPTY_TAG) a.id ≠ "" :=
          merge_index_ne_empty _ _ hid.1
        rw [obucket_some_merge_self
          (some (merge_index (s0.tagToAnnots EMPTY_TAG) a.id)) a.id hid
          (fun hcon => hinner (Option.some_injective _ hcon))]
        apply mem_append_singleton_iff
        rw [show obucket (some (merge_index (s0.tagToAnnots EMPTY_TAG) a.id))
            = obucket (s0.tagToAnnots EMPTY_TAG) ++ [a.id] from
          obucket_some_merge_self (s0.tagToAnnots EMPTY_TAG) a.id hid hs0ne]
        exact List.mem_append.mpr (Or.inr (List.mem_singleton.mpr rfl))
      · rw [mergeT2A_t2a_other _ _ _ _ hk]
        rfl
  · -- real-tags path
    obtain ⟨tw, htw, htwf⟩ := hws.resolve_left h0
    have hcond : ¬ (a.tags = [] ∨ ¬ a.tags.any (fun t => ¬ trimEmpty t)) := by
      rintro (h | h)
      · exact h0 h
      · exact h (List.any_eq_true.mpr ⟨tw, htw, by simp [htwf]⟩)
    have hsemi : ∀ t ∈ a.tags, ';' ∉ t.data := fun t ht => (htags t ht).2
    have hjv : split_ids (join_ids a.tags) = a.tags := split_ids_join_ids a.tags h0 hsemi
    have hdb1t2a : (syncAnnots s0 [a]).2.tagToAnnots
        = (addTagsLoop s0 a.tags a.id).tagToAnnots := by
      rw [hnew]
      show (addAnnot s0 a [] []).1.tagToAnnots = _
      rw [addAnnot_db_of_not s0 a [] [] hcond]
    have hsome : ∀ t ∈ a.tags, t ≠ "" →
        (({ (syncAnnots s0 [a]).2 with
            annotToTags := upd (syncAnnots s0 [a]).2.annotToTags a.id none } : DB).tagToAnnots
          t).isSome := by
      intro t ht htne
      show ((syncAnnots s0 [a]).2.tagToAnnots t).isSome
      rw [hdb1t2a, addTagsLoop_t2a_nodup a.tags s0 a.id t hnd ht htne]
      rfl
    obtain ⟨hok, hpt⟩ := deleteTagsLoop_pointwise a.tags
      { (syncAnnots s0 [a]).2 with
        annotToTags := upd (syncAnnots s0 [a]).2.annotToTags a.id none } a.id hnd hsome
    have hloopok : (deleteTagsLoop
        { (syncAnnots s0 [a]).2 with
          annotToTags := upd (syncAnnots s0 [a]).2.annotToTags a.id none }
        (split_ids (join_ids a.tags)) a.id).1 = Except.ok () := by
      rw [hjv]; exact hok
    have hdel := deleteAnnot_spec (syncAnnots s0 [a]).2 a.id (join_ids a.tags) hself hloopok
    have hdel1 : (deleteAnnot (syncAnnots s0 [a]).2 a.id).1
        = Except.ok (split_ids (join_ids a.tags)) := by rw [hdel]
    have hupd := syncAnnots_single_upd (syncAnnots s0 [a]).2 a hisSome _ hdel1
    have hD : (deleteAnnot (syncAnnots s0 [a]).2 a.id).2
        = deleteFromAnnots
            (deleteTagsLoop
              { (syncAnnots s0 [a]).2 with
                annotToTags := upd (syncAnnots s0 [a]).2.annotToTags a.id none }
              (split_ids (join_ids a.tags)) a.id).2 a.id := by rw [hdel]
    have hLframe := deleteTagsLoop_frame (split_ids (join_ids a.tags))
      { (syncAnnots s0 [a]).2 with
        annotToTags := upd (syncAnnots s0 [a]).2.annotToTags a.id none } a.id
    -- the value of each bucket after the delete loop
    have hLt2a : ∀ k, (deleteTagsLoop
        { (syncAnnots s0 [a]).2 with
          annotToTags := upd (syncAnnots s0 [a]).2.annotToTags a.id none }
        (split_ids (join_ids a.tags)) a.id).2.tagToAnnots k
        = if k ∈ a.tags ∧ k ≠ ""
          then ((syncAnnots s0 [a]).2.tagToAnnots k).bind (fun w => filterVal w a.id)
          else (syncAnnots s0 [a]).2.tagToAnnots k := by
      intro k
      rw [hjv, hpt k]
    refine ⟨by rw [hupd], ?_, ?_, ?_, ?_⟩
    · intro k
      rw [hupd]
      show upd (deleteAnnot (syncAnnots s0 [a]).2 a.id).2.annots a.id (some a) k
          = (syncAnnots s0 [a]).2.annots k
      by_cases hk : k = a.id
      · subst hk
        rw [upd_self, hdb1ann, upd_self]
      · rw [upd_other _ _ _ _ hk, hD]
        show upd (deleteTagsLoop _ (split_ids (join_ids a.tags)) a.id).2.annots a.id none k = _
        rw [upd_other _ _ _ _ hk, hLframe.1]
    · intro k
      rw [hupd]
      show upd (deleteAnnot (syncAnnots s0 [a]).2 a.id).2.annotToTags a.id
            (some (join_ids a.tags)) k
          = (syncAnnots s0 [a]).2.annotToTags k
      by_cases hk : k = a.id
      · subst hk
        rw [upd_self, hself]
      · rw [upd_other _ _ _ _ hk, hD]
        show (deleteTagsLoop _ (split_ids (join_ids a.tags)) a.id).2.annotToTags k = _
        rw [hLframe.2.1]
        show upd (syncAnnots s0 [a]).2.annotToTags a.id none k = _
        rw [upd_other _ _ _ _ hk]
    · intro k
      rw [hupd]
      show ((addAnnot (deleteAnnot (syncAnnots s0 [a]).2 a.id).2 a [] []).1.tagToAnnots
            k).isSome
          = ((syncAnnots s0 [a]).2.tagToAnnots k).isSome
      rw [addAnnot_db_of_not _ a [] [] hcond,
        addTagsLoop_pointwise a.tags _ a.id k hnd]
      by_cases hk : k ∈ a.tags ∧ k ≠ ""
      · rw [if_pos hk, hdb1t2a, addTagsLoop_t2a_nodup a.tags s0 a.id k hnd hk.1 hk.2]
        rfl
      · rw [if_neg hk, hD]
        show ((deleteTagsLoop _ (split_ids (join_ids a.tags)) a.id).2.tagToAnnots k).isSome
            = _
        rw [hLt2a k, if_neg hk]
    · intro k i
      rw [hupd]
      show i ∈ obucket ((addAnnot (deleteAnnot (syncAnnots s0 [a]).2 a.id).2
            a [] []).1.tagToAnnots k)
          ↔ i ∈ obucket ((syncAnnots s0 [a]).2.tagToAnnots k)
      rw [addAnnot_db_of_not _ a [] [] hcond,
        addTagsLoop_pointwise a.tags _ a.id k hnd]
      by_cases hk : k ∈ a.tags ∧ k ≠ ""
      · rw [if_pos hk]
        have hDt2a : (deleteAnnot (syncAnnots s0 [a]).2 a.id).2.tagToAnnots k
            = filterVal (merge_index (s0.tagToAnnots k) a.id) a.id := by
          rw [hD]
          show (deleteTagsLoop _ (split_ids (join_ids a.tags)) a.id).2.tagToAnnots k = _
          rw [hLt2a k, if_pos hk, hdb1t2a,
            addTagsLoop_t2a_nodup a.tags s0 a.id k hnd hk.1 hk.2]
          rfl
        rw [hDt2a, hdb1t2a, addTagsLoop_t2a_nodup a.tags s0 a.id k hnd hk.1 hk.2]
        exact idem_bucket (s0.tagToAnnots k) a.id hid (hgb k) i
      · rw [if_neg hk, hD]
        show i ∈ obucket ((deleteTagsLoop _ (split_ids (join_ids a.tags)) a.id).2.tagToAnnots
              k)
          ↔ _
        rw [hLt2a k, if_neg hk]

/-! Helper lemmas for the Tag Index invariant (C1). -/

theorem mem_obucket_iff (o : Option String) (i : String) :
    i ∈ obucket o ↔ ∃ w, o = some w ∧ i ∈ split_ids w := by
  cases o with
  | none => simp [obucket]
  | some w => simp [obucket]

theorem mem_split_merge (o : Option String) (id i : String) (hid : ';' ∉ id.data)
    (h : i ∈ split_ids (merge_index o id)) : i ∈ obucket o ∨ i = id := by
  cases o with
  | none =>
    rw [show merge_index none id = id from rfl, split_ids_single id hid] at h
    exact Or.inr (List.mem_singleton.mp h)
  | some w =>
    by_cases hw : w = ""
    · rw [show merge_index (some w) id = id by simp [merge_index, hw],
        split_ids_single id hid] at h
      exact Or.inr (List.mem_singleton.mp h)
    · rw [show merge_index (some w) id = w ++ ";" ++ id by simp [merge_index, hw],
        split_ids_sep, split_ids_single id hid] at h
      rcases List.mem_append.mp h with h | h
      · exact Or.inl (by simpa [obucket] using h)
      · exact Or.inr (List.mem_singleton.mp h)

theorem mem_split_merge_of_mem (o : Option String) (id i : String)
    (ho : o ≠ some "") (h : i ∈ obucket o) : i ∈ split_ids (merge_index o id) := by
  cases o with
  | none => cases h
  | some w =>
    have hw : w ≠ "" := fun hcon => ho (by rw [hcon])
    rw [show merge_index (some w) id = w ++ ";" ++ id by simp [merge_index, hw],
      split_ids_sep]
    exact List.mem_append.mpr (Or.inl (by simpa [obucket] using h))

theorem mem_split_merge_self (o : Option String) (id : String) (hid : ';' ∉ id.data) :
    id ∈ split_ids (merge_index o id) := by
  cases o with
  | none =>
    rw [show merge_index none id = id from rfl, split_ids_single id hid]
    exact List.mem_singleton.mpr rfl
  | some w =>
    by_cases hw : w = ""
    · rw [show merge_index (some w) id = id by simp [merge_index, hw],
        split_ids_single id hid]
      exact List.mem_singleton.mpr rfl
    · rw [show merge_index (some w) id = w ++ ";" ++ id by simp [merge_index, hw],
        split_ids_sep, split_ids_single id hid]
      exact List.mem_append.mpr (Or.inr (List.mem_singleton.mpr rfl))

theorem addTagsLoop_mem_new : ∀ (tags : List String) (db : DB) (id k i : String),
    ';' ∉ id.data →
    i ∈ obucket ((addTagsLoop db tags id).tagToAnnots k) →
    i ∈ obucket (db.tagToAnnots k) ∨ (i = id ∧ k ∈ tags ∧ k ≠ "") := by
  intro tags
  induction tags with
  | nil => intro db id k i _ h; exact Or.inl h
  | cons t rest ih =>
    intro db id k i hid h
    rw [addTagsLoop_cons] at h
    by_cases ht : t = ""
    · rw [if_pos ht] at h
      rcases ih db id k i hid h with h | ⟨h1, h2, h3⟩
      · exact Or.inl h
      · exact Or.inr ⟨h1, List.mem_cons_of_mem t h2, h3⟩
    · rw [if_neg ht] at h
      rcases ih (mergeT2A db t id) id k i hid h with h | ⟨h1, h2, h3⟩
      · by_cases hk : k = t
        · subst hk
          rw [mergeT2A_t2a_self] at h
          rcases mem_split_merge _ _ _ hid (by simpa [obucket] using h) with h | h
          · exact Or.inl h
          · exact Or.inr ⟨h, List.mem_cons_self _ _, ht⟩
        · rw [mergeT2A_t2a_other _ _ _ _ hk] at h
          exact Or.inl h
      · exact Or.inr ⟨h1, List.mem_cons_of_mem t h2, h3⟩

theorem addTagsLoop_mono : ∀ (tags : List String) (db : DB) (id k i : String),
    id ≠ "" →
    (∀ w, db.tagToAnnots k = some w → w ≠ "") →
    i ∈ obucket (db.tagToAnnots k) →
    i ∈ obucket ((addTagsLoop db tags id).tagToAnnots k) := by
  intro tags
  induction tags with
  | nil => intro db id k i _ _ h; exact h
  | cons t rest ih =>
    intro db id k i hidne hne h
    rw [addTagsLoop_cons]
    by_cases ht : t = ""
    · rw [if_pos ht]; exact ih db id k i hidne hne h
    · rw [if_neg ht]
      by_cases hk : k = t
      · subst hk
        apply ih (mergeT2A db k id) id k i hidne
        · intro w hw
          rw [mergeT2A_t2a_self] at hw
          exact (Option.some_injective _ hw) ▸ merge_index_ne_empty _ _ hidne
        · rw [mergeT2A_t2a_self]
          show i ∈ split_ids (merge_index (db.tagToAnnots k) id)
          apply mem_split_merge_of_mem _ _ _ _ h
          intro hcon
          exact hne "" hcon rfl
      · apply ih (mergeT2A db t id) id k i hidne
        · intro w hw
          rw [mergeT2A_t2a_other _ _ _ _ hk] at hw
          exact hne w hw
        · rw [mergeT2A_t2a_other _ _ _ _ hk]
          exact h

theorem addTagsLoop_self_mem2 : ∀ (tags : List String) (db : DB) (id k : String),
    GoodStr id → k ∈ tags → k ≠ "" →
    id ∈ obucket ((addTagsLoop db tags id).tagToAnnots k) := by
  intro tags
  induction tags with
  | nil => intro db id k _ hk; cases hk
  | cons t rest ih =>
    intro db id k hid hk hkne
    rw [addTagsLoop_cons]
    rcases List.mem_cons.mp hk with he | hm
    · subst he
      rw [if_neg hkne]
      by_cases hr : k ∈ rest
      · exact ih (mergeT2A db k id) id k hid hr hkne
      · rw [addTagsLoop_t2a_skip rest (mergeT2A db k id) id k
          (fun t' ht' => Or.inr (fun hcon => hr (hcon ▸ ht'))), mergeT2A_t2a_self]
        show id ∈ split_ids (merge_index (db.tagToAnnots k) id)
        exact mem_split_merge_self _ _ hid.2
    · by_cases ht : t = ""
      · rw [if_pos ht]; exact ih db id k hid hm hkne
      · rw [if_neg ht]; exact ih (mergeT2A db t id) id k hid hm hkne

theorem addTagsLoop_isSome_rev : ∀ (tags : List String) (db : DB) (id k : String),
    ((addTagsLoop db tags id).tagToAnnots k).isSome →
    (db.tagToAnnots k).isSome ∨ (k ∈ tags ∧ k ≠ "") := by
  intro tags
  induction tags with
  | nil => intro db id k h; exact Or.inl h
  | cons t rest ih =>
    intro db id k h
    rw [addTagsLoop_cons] at h
    by_cases ht : t = ""
    · rw [if_pos ht] at h
      rcases ih db id k h with h | ⟨h1, h2⟩
      · exact Or.inl h
      · exact Or.inr ⟨List.mem_cons_of_mem t h1, h2⟩
    · rw [if_neg ht] at h
      rcases ih (mergeT2A db t id) id k h with h | ⟨h1, h2⟩
      · by_cases hk : k = t
        · subst hk
          exact Or.inr ⟨List.mem_cons_self _ _, ht⟩
        · rw [mergeT2A_t2a_other _ _ _ _ hk] at h
          exact Or.inl h
      · exact Or.inr ⟨List.mem_cons_of_mem t h1, h2⟩

theorem goodAnn_sentinel_iff (a : Annot) (hg : GoodAnn a) :
    (a.tags = [] ∨ ¬ a.tags.any (fun t => ¬ trimEmpty t)) ↔ a.tags = [] := by
  constructor
  · rintro (h | h)
    · exact h
    · by_contra hcon
      obtain ⟨t, ht, htf⟩ := hg.2.2 hcon
      exact h (List.any_eq_true.mpr ⟨t, ht, by simp [htf]⟩)
  · exact Or.inl

theorem applyBatch_notMem {α : Type} : ∀ (B : Batch α) (m : Tree α) (k : String),
    k ∉ B.map Prod.fst → applyBatch m B k = m k := by
  intro B
  induction B with
  | nil => intro m k _; rfl
  | cons p rest ih =>
    intro m k hk
    show applyBatch (upd m p.1 p.2) rest k = m k
    rw [ih (upd m p.1 p.2) k (fun h => hk (by simp [h]))]
    exact upd_other _ _ _ _ (fun h => hk (by simp [h]))

theorem applyBatch_mem {α : Type} : ∀ (B : Batch α) (m : Tree α) (k : String)
    (v : Option α), (k, v) ∈ B → (B.map Prod.fst).Nodup → applyBatch m B k = v := by
  intro B
  induction B with
  | nil => intro m k v h; cases h
  | cons p rest ih =>
    intro m k v h hnd
    rcases List.mem_cons.mp h with he | hm
    · subst he
      show applyBatch (upd m k v) rest k = v
      have hnd2 : (k :: rest.map Prod.fst).Nodup := by simpa using hnd
      rw [applyBatch_notMem rest _ k (List.nodup_cons.mp hnd2).1]
      exact upd_self _ _ _
    · show applyBatch (upd m p.1 p.2) rest k = v
      have hnd2 : (p.1 :: rest.map Prod.fst).Nodup := by simpa using hnd
      exact ih _ k v hm (List.nodup_cons.mp hnd2).2

theorem inv_of_syncMid_nil (db : DB) (h : SyncMid db []) : Inv db := by
  refine ⟨h.wfA2T, h.fwd, h.wfT2A, ?_⟩
  intro t w hw ht i hi
  rcases h.rev t w hw ht i hi with h1 | ⟨v, hv, _⟩
  · exact h1
  · cases hv

theorem syncMid_nil_of_inv (db : DB) (h : Inv db) : SyncMid db [] := by
  refine ⟨h.wfA2T, h.fwd, h.wfT2A, ?_, ?_, List.nodup_nil⟩
  · intro t w hw ht i hi
    exact Or.inl (h.rev t w hw ht i hi)
  · intro p hp
    cases hp

theorem deleteFromT2A_effects (db : DB) (k0 id w0 : String)
    (h : db.tagToAnnots k0 = some w0) :
    (deleteFromT2A db k0 id).1 = Except.ok () ∧
    (deleteFromT2A db k0 id).2.tagToAnnots k0 = filterVal w0 id ∧
    (∀ k, k ≠ k0 → (deleteFromT2A db k0 id).2.tagToAnnots k = db.tagToAnnots k) := by
  rw [deleteFromT2A_some db k0 id w0 h]
  exact ⟨rfl, upd_self _ _ _, fun k hk => upd_other _ _ _ _ hk⟩

theorem mem_filterVal (w id i : String) :
    i ∈ obucket (filterVal w id) ↔ i ∈ split_ids w ∧ i ≠ id := by
  unfold filterVal
  by_cases hl : (split_ids w).filter (fun i => i ≠ id) = []
  · rw [if_pos hl]
    show i ∈ ([] : List String) ↔ _
    constructor
    · intro h; cases h
    · intro ⟨h1, h2⟩
      have : i ∈ (split_ids w).filter (fun i => i ≠ id) :=
        List.mem_filter.mpr ⟨h1, by simpa using h2⟩
      rw [hl] at this
      cases this
  · rw [if_neg hl]
    show i ∈ split_ids (join_ids _) ↔ _
    rw [split_ids_join_ids _ hl
      (fun x hx => mem_split_ids_no_semi w x (List.mem_filter.mp hx).1)]
    constructor
    · intro h
      obtain ⟨h1, h2⟩ := List.mem_filter.mp h
      exact ⟨h1, by simpa using h2⟩
    · intro ⟨h1, h2⟩
      exact List.mem_filter.mpr ⟨h1, by simpa using h2⟩

theorem filterVal_wf (w id : String) (hw : ∀ i ∈ split_ids w, GoodStr i) :
    ∀ w', filterVal w id = some w' → w' ≠ "" ∧ ∀ i ∈ split_ids w', GoodStr i := by
  intro w' hval
  unfold filterVal at hval
  by_cases hl : (split_ids w).filter (fun i => i ≠ id) = []
  · rw [if_pos hl] at hval; cases hval
  · rw [if_neg hl] at hval
    have hjoin : w' = join_ids ((split_ids w).filter (fun i => i ≠ id)) :=
      (Option.some_injective _ hval).symm
    have hmem : ∀ i ∈ (split_ids w).filter (fun i => i ≠ id), GoodStr i :=
      fun i hi => hw i (List.mem_filter.mp hi).1
    have hsplit : split_ids w' = (split_ids w).filter (fun i => i ≠ id) := by
      rw [hjoin]
      exact split_ids_join_ids _ hl
        (fun x hx => mem_split_ids_no_semi w x (List.mem_filter.mp hx).1)
    constructor
    · rw [hjoin]
      exact join_ids_ne_empty _ hl (fun hcon => (hmem "" hcon).1 rfl)
    · intro i hi
      rw [hsplit] at hi
      exact hmem i hi

theorem deleteTagsLoop_core : ∀ (tags : List String) (db : DB) (id : String),
    (∀ t w, db.tagToAnnots t = some w → GoodStr t ∧ w ≠ "" ∧ ∀ i ∈ split_ids w, GoodStr i) →
    (deleteTagsLoop db tags id).1 = Except.ok () →
    (∀ t w, (deleteTagsLoop db tags id).2.tagToAnnots t = some w →
        GoodStr t ∧ w ≠ "" ∧ ∀ i ∈ split_ids w, GoodStr i) ∧
    (∀ k i, i ≠ id →
        (i ∈ obucket ((deleteTagsLoop db tags id).2.tagToAnnots k) ↔
          i ∈ obucket (db.tagToAnnots k))) ∧
    (∀ k, k ∈ tags → k ≠ "" → id ∉ obucket ((deleteTagsLoop db tags id).2.tagToAnnots k)) ∧
    (∀ k, (k ∉ tags ∨ k = "") → (deleteTagsLoop db tags id).2.tagToAnnots k
        = db.tagToAnnots k) := by
  intro tags
  induction tags with
  | nil =>
    intro db id hwf _
    exact ⟨hwf, fun k i _ => Iff.rfl, fun k hk => absurd hk (List.not_mem_nil k),
      fun k _ => rfl⟩
  | cons t rest ih =>
    intro db id hwf hok
    rw [deleteTagsLoop] at hok ⊢
    by_cases hte : t = ""
    · rw [if_pos hte] at hok ⊢
      obtain ⟨c1, c2, c3, c4⟩ := ih db id hwf hok
      refine ⟨c1, c2, ?_, ?_⟩
      · intro k hk hkne
        rcases List.mem_cons.mp hk with he | hm
        · exact absurd (he.trans hte) hkne
        · exact c3 k hm hkne
      · intro k hk
        apply c4
        rcases hk with hk | hk
        · exact Or.inl (fun hcon => hk (List.mem_cons_of_mem t hcon))
        · exact Or.inr hk
    · rw [if_neg hte] at hok ⊢
      cases hbt : db.tagToAnnots t with
      | none =>
        rw [deleteFromT2A_none db t id hbt] at hok
        cases hok
      | some w0 =>
        obtain ⟨e1, e2, e3⟩ := deleteFromT2A_effects db t id w0 hbt
        have heq : deleteFromT2A db t id
            = (Except.ok (), (deleteFromT2A db t id).2) := by rw [← e1]
        rw [heq] at hok ⊢
        have hwf' : ∀ t' w, (deleteFromT2A db t id).2.tagToAnnots t' = some w →
            GoodStr t' ∧ w ≠ "" ∧ ∀ i ∈ split_ids w, GoodStr i := by
          intro t' w hw
          by_cases ht' : t' = t
          · subst ht'
            rw [e2] at hw
            obtain ⟨h2, h3⟩ := filterVal_wf w0 id (hwf t' w0 hbt).2.2 w hw
            exact ⟨(hwf t' w0 hbt).1, h2, h3⟩
          · exact hwf t' w (by rw [← e3 t' ht']; exact hw)
        obtain ⟨c1, c2, c3, c4⟩ := ih (deleteFromT2A db t id).2 id hwf' hok
        refine ⟨c1, ?_, ?_, ?_⟩
        · intro k i hine
          rw [c2 k i hine]
          by_cases hk : k = t
          · subst hk
            rw [e2, mem_filterVal, hbt]
            show i ∈ split_ids w0 ∧ i ≠ id ↔ i ∈ split_ids w0
            exact ⟨fun h => h.1, fun h => ⟨h, hine⟩⟩
          · rw [e3 k hk]
        · intro k hk hkne
          rcases List.mem_cons.mp hk with he | hm
          · subst he
            by_cases hkr : k ∈ rest
            · exact c3 k hkr hkne
            · rw [c4 k (Or.inl hkr), e2]
              intro hcon
              exact ((mem_filterVal w0 id id).mp hcon).2 rfl
          · exact c3 k hm hkne
        · intro k hk
          have hknt : k ≠ t := by
            rcases hk with hk | hk
            · exact fun hcon => hk (hcon ▸ List.mem_cons_self t rest)
            · exact fun hcon => hte (hcon ▸ hk)
          have harg : k ∉ rest ∨ k = "" := by
            rcases hk with hk | hk
            · exact Or.inl (fun hcon => hk (List.mem_cons_of_mem t hcon))
            · exact Or.inr hk
          rw [c4 k harg, e3 k hknt]

theorem addTagsLoop_ne_empty : ∀ (tags : List String) (db : DB) (id k : String),
    id ≠ "" → (∀ w, db.tagToAnnots k = some w → w ≠ "") →
    ∀ w', (addTagsLoop db tags id).tagToAnnots k = some w' → w' ≠ "" := by
  intro tags
  induction tags with
  | nil => intro db id k _ hne w' hw'; exact hne w' hw'
  | cons t rest ih =>
    intro db id k hidne hne w' hw'
    rw [addTagsLoop_cons] at hw'
    by_cases ht : t = ""
    · rw [if_pos ht] at hw'
      exact ih db id k hidne hne w' hw'
    · rw [if_neg ht] at hw'
      by_cases hk : k = t
      · subst hk
        refine ih (mergeT2A db k id) id k hidne ?_ w' hw'
        intro w hw
        rw [mergeT2A_t2a_self] at hw
        exact (Option.some_injective _ hw) ▸ merge_index_ne_empty _ _ hidne
      · refine ih (mergeT2A db t id) id k hidne ?_ w' hw'
        intro w hw
        rw [mergeT2A_t2a_other _ _ _ _ hk] at hw
        exact hne w hw

theorem deleteAnnot_pres (db : DB) (B : Batch String) (id : String) (ts : List String)
    (hmid : SyncMid db B) (hok : (deleteAnnot db id).1 = Except.ok ts) :
    SyncMid (deleteAnnot db id).2 B ∧ (deleteAnnot db id).2.annotToTags id = none := by
  cases hv : db.annotToTags id with
  | none =>
    unfold deleteAnnot at hok
    rw [deleteFromA2T_none db id hv] at hok
    cases hok
  | some v =>
    unfold deleteAnnot at hok ⊢
    rw [deleteFromA2T_some db id v hv] at hok ⊢
    dsimp only at hok ⊢
    cases hloop : (deleteTagsLoop
        { db with annotToTags := upd db.annotToTags id none } (split_ids v) id).1 with
    | error e =>
      have heq : deleteTagsLoop { db with annotToTags := upd db.annotToTags id none }
          (split_ids v) id
          = (Except.error e, (deleteTagsLoop
              { db with annotToTags := upd db.annotToTags id none } (split_ids v) id).2) := by
        rw [← hloop]
      rw [heq] at hok
      cases hok
    | ok u =>
      cases u
      have heq : deleteTagsLoop { db with annotToTags := upd db.annotToTags id none }
          (split_ids v) id
          = (Except.ok (), (deleteTagsLoop
              { db with annotToTags := upd db.annotToTags id none } (split_ids v) id).2) := by
        rw [← hloop]
      rw [heq] at hok ⊢
      have hwfdbm : ∀ t w, ({ db with annotToTags := upd db.annotToTags id none } :
          DB).tagToAnnots t = some w →
          GoodStr t ∧ w ≠ "" ∧ ∀ i ∈ split_ids w, GoodStr i := hmid.wfT2A
      obtain ⟨c1, c2, c3, c4⟩ := deleteTagsLoop_core (split_ids v)
        { db with annotToTags := upd db.annotToTags id none } id hwfdbm hloop
      have hframe := deleteTagsLoop_frame (split_ids v)
        { db with annotToTags := upd db.annotToTags id none } id
      -- the final state's annotation_to_tags is db's minus `id`
      have hFa2t : ∀ k, (deleteFromAnnots (deleteTagsLoop
          { db with annotToTags := upd db.annotToTags id none } (split_ids v) id).2
            id).annotToTags k = upd db.annotToTags id none k := by
        intro k
        show (deleteTagsLoop { db with annotToTags := upd db.annotToTags id none }
            (split_ids v) id).2.annotToTags k = _
        rw [hframe.2.1]
      have hFt2a : ∀ k, (deleteFromAnnots (deleteTagsLoop
          { db with annotToTags := upd db.annotToTags id none } (split_ids v) id).2
            id).tagToAnnots k = (deleteTagsLoop
          { db with annotToTags := upd db.annotToTags id none } (split_ids v) id).2.tagToAnnots
            k := fun k => rfl
      -- `id` is in no bucket of the final state outside EMPTY_TAG
      have hgone : ∀ t, t ≠ EMPTY_TAG →
          id ∉ obucket ((deleteTagsLoop { db with annotToTags := upd db.annotToTags id none }
            (split_ids v) id).2.tagToAnnots t) := by
        intro t htU hcon
        by_cases hk : t ∈ split_ids v ∧ t ≠ ""
        · exact c3 t hk.1 hk.2 hcon
        · rw [c4 t (by
            by_cases h1 : t ∈ split_ids v
            · exact Or.inr (by_contra fun h2 => hk ⟨h1, h2⟩)
            · exact Or.inl h1)] at hcon
          show False
          obtain ⟨w, hw, hmemw⟩ := (mem_obucket_iff _ _).mp hcon
          rcases hmid.rev t w hw htU id hmemw with ⟨va, hva, hta⟩ | ⟨vb, hvb, _⟩
          · rw [hv] at hva
            have hta2 : t ∈ split_ids v := (Option.some_injective _ hva) ▸ hta
            exact hk ⟨hta2, (hmid.wfT2A t w hw).1.1⟩
          · obtain ⟨i2, v2, hp, _, hnone2, _⟩ := hmid.batch (id, some vb) hvb
            cases hp
            rw [hv] at hnone2
            cases hnone2
      refine ⟨⟨?_, ?_, ?_, ?_, ?_, hmid.keysNodup⟩, ?_⟩
      · intro i v' hv'
        rw [hFa2t i] at hv'
        by_cases hi : i = id
        · subst hi; rw [upd_self] at hv'; cases hv'
        · rw [upd_other _ _ _ _ hi] at hv'
          exact hmid.wfA2T i v' hv'
      · intro i v' hv' t ht htne
        rw [hFa2t i] at hv'
        by_cases hi : i = id
        · subst hi; rw [upd_self] at hv'; cases hv'
        · rw [upd_other _ _ _ _ hi] at hv'
          obtain ⟨w, hw, hmemw⟩ := hmid.fwd i v' hv' t ht htne
          have : i ∈ obucket ((deleteTagsLoop
              { db with annotToTags := upd db.annotToTags id none }
              (split_ids v) id).2.tagToAnnots t) := by
            rw [c2 t i hi]
            exact (mem_obucket_iff _ _).mpr ⟨w, hw, hmemw⟩
          obtain ⟨w', hw', hmw'⟩ := (mem_obucket_iff _ _).mp this
          exact ⟨w', by rw [hFt2a t]; exact hw', hmw'⟩
      · intro t w hw
        rw [hFt2a t] at hw
        exact c1 t w hw
      · intro t w hw htU i hi
        rw [hFt2a t] at hw
        have hiob : i ∈ obucket ((deleteTagsLoop
            { db with annotToTags := upd db.annotToTags id none }
            (split_ids v) id).2.tagToAnnots t) := (mem_obucket_iff _ _).mpr ⟨w, hw, hi⟩
        by_cases hiid : i = id
        · subst hiid
          exact absurd hiob (hgone t htU)
        · rw [c2 t i hiid] at hiob
          obtain ⟨w0, hw0, hmw0⟩ := (mem_obucket_iff _ _).mp hiob
          rcases hmid.rev t w0 hw0 htU i hmw0 with ⟨va, hva, hta⟩ | ⟨vb, hvb, htb⟩
          · refine Or.inl ⟨va, ?_, hta⟩
            rw [hFa2t i, upd_other _ _ _ _ hiid]
            exact hva
          · exact Or.inr ⟨vb, hvb, htb⟩
      · intro p hp
        obtain ⟨i, vb, hpe, hgi, hnone2, hwfv, hfwd2, hrev2⟩ := hmid.batch p hp
        have hine : i ≠ id := fun hcon => by
          rw [hcon, hv] at hnone2; cases hnone2
        refine ⟨i, vb, hpe, hgi, ?_, hwfv, ?_, ?_⟩
        · rw [hFa2t i, upd_other _ _ _ _ hine]
          exact hnone2
        · intro t ht htne
          obtain ⟨w, hw, hmemw⟩ := hfwd2 t ht htne
          have : i ∈ obucket ((deleteTagsLoop
              { db with annotToTags := upd db.annotToTags id none }
              (split_ids v) id).2.tagToAnnots t) := by
            rw [c2 t i hine]
            exact (mem_obucket_iff _ _).mpr ⟨w, hw, hmemw⟩
          obtain ⟨w', hw', hmw'⟩ := (mem_obucket_iff _ _).mp this
          exact ⟨w', by rw [hFt2a t]; exact hw', hmw'⟩
        · intro t w hw htU hmw
          rw [hFt2a t] at hw
          have hiob : i ∈ obucket ((deleteTagsLoop
              { db with annotToTags := upd db.annotToTags id none }
              (split_ids v) id).2.tagToAnnots t) := (mem_obucket_iff _ _).mpr ⟨w, hw, hmw⟩
          rw [c2 t i hine] at hiob
          obtain ⟨w0, hw0, hmw0⟩ := (mem_obucket_iff _ _).mp hiob
          exact hrev2 t w0 hw0 htU hmw0
      · rw [hFa2t id]
        exact upd_self _ _ _

theorem addTagsLoop_syncMid (db : DB) (B : Batch String) (id jv : String)
    (TT : List String)
    (hmid : SyncMid db B) (hid : GoodStr id) (hTT : ∀ t ∈ TT, GoodStr t)
    (hnone : db.annotToTags id = none) (hkey : id ∉ B.map Prod.fst)
    (hcase : (jv = "" ∧ TT = [EMPTY_TAG]) ∨ split_ids jv = TT) :
    SyncMid (addTagsLoop db TT id) (B ++ [(id, some jv)]) := by
  have hAa2t : (addTagsLoop db TT id).annotToTags = db.annotToTags :=
    (addTagsLoop_frame TT db id).2.1
  have hNoOld : ∀ t w, db.tagToAnnots t = some w → t ≠ EMPTY_TAG →
      id ∉ split_ids w := by
    intro t w hw ht hcon
    rcases hmid.rev t w hw ht id hcon with ⟨va, hva, _⟩ | ⟨vb, hvb, _⟩
    · rw [hnone] at hva; cases hva
    · exact hkey (List.mem_map.mpr ⟨(id, some vb), hvb, rfl⟩)
  have hbne : ∀ k, ∀ w, db.tagToAnnots k = some w → w ≠ "" := by
    intro k w hw
    exact (hmid.wfT2A k w hw).2.1
  have hwfv : jv = "" ∨ ∀ t ∈ split_ids jv, GoodStr t := by
    rcases hcase with ⟨h1, _⟩ | h2
    · exact Or.inl h1
    · exact Or.inr (fun t ht => hTT t (h2 ▸ ht))
  refine ⟨?_, ?_, ?_, ?_, ?_, ?_⟩
  · intro i v' hv'
    rw [hAa2t] at hv'
    exact hmid.wfA2T i v' hv'
  · intro i v' hv' t ht htne
    rw [hAa2t] at hv'
    obtain ⟨w, hw, hmemw⟩ := hmid.fwd i v' hv' t ht htne
    have : i ∈ obucket ((addTagsLoop db TT id).tagToAnnots t) := by
      apply addTagsLoop_mono TT db id t i hid.1 (hbne t)
      exact (mem_obucket_iff _ _).mpr ⟨w, hw, hmemw⟩
    exact (mem_obucket_iff _ _).mp this
  · intro t w' hw'
    have hkey2 : GoodStr t := by
      rcases addTagsLoop_isSome_rev TT db id t (by rw [hw']; rfl) with hs | ⟨h1, _⟩
      · obtain ⟨w0, hw0⟩ := Option.isSome_iff_exists.mp hs
        exact (hmid.wfT2A t w0 hw0).1
      · exact hTT t h1
    refine ⟨hkey2, ?_, ?_⟩
    · exact addTagsLoop_ne_empty TT db id t hid.1 (hbne t) w' hw'
    · intro i hi
      have : i ∈ obucket ((addTagsLoop db TT id).tagToAnnots t) :=
        (mem_obucket_iff _ _).mpr ⟨w', hw', hi⟩
      rcases addTagsLoop_mem_new TT db id t i hid.2 this with h | ⟨h1, _, _⟩
      · obtain ⟨w0, hw0, hm0⟩ := (mem_obucket_iff _ _).mp h
        exact (hmid.wfT2A t w0 hw0).2.2 i hm0
      · exact h1 ▸ hid
  · intro t w' hw' htU i hi
    have hiA : i ∈ obucket ((addTagsLoop db TT id).tagToAnnots t) :=
      (mem_obucket_iff _ _).mpr ⟨w', hw', hi⟩
    rcases addTagsLoop_mem_new TT db id t i hid.2 hiA with h | ⟨h1, h2, h3⟩
    · obtain ⟨w0, hw0, hm0⟩ := (mem_obucket_iff _ _).mp h
      rcases hmid.rev t w0 hw0 htU i hm0 with ⟨va, hva, hta⟩ | ⟨vb, hvb, htb⟩
      · exact Or.inl ⟨va, by rw [hAa2t]; exact hva, hta⟩
      · exact Or.inr ⟨vb, List.mem_append.mpr (Or.inl hvb), htb⟩
    · subst h1
      rcases hcase with ⟨_, hTTe⟩ | hsplit
      · rw [hTTe] at h2
        exact absurd (List.mem_singleton.mp h2) htU
      · exact Or.inr ⟨jv, List.mem_append.mpr (Or.inr (List.mem_singleton.mpr rfl)),
          hsplit ▸ h2⟩
  · intro p hp
    rcases List.mem_append.mp hp with hp | hp
    · obtain ⟨i, vb, hpe, hgi, hnone2, hwfvb, hfwd2, hrev2⟩ := hmid.batch p hp
      have hine : i ≠ id := by
        intro hcon
        exact hkey (hcon ▸ List.mem_map.mpr ⟨p, hp, by rw [hpe, hcon]⟩)
      refine ⟨i, vb, hpe, hgi, by rw [hAa2t]; exact hnone2, hwfvb, ?_, ?_⟩
      · intro t ht htne
        obtain ⟨w, hw, hmemw⟩ := hfwd2 t ht htne
        have : i ∈ obucket ((addTagsLoop db TT id).tagToAnnots t) := by
          apply addTagsLoop_mono TT db id t i hid.1 (hbne t)
          exact (mem_obucket_iff _ _).mpr ⟨w, hw, hmemw⟩
        exact (mem_obucket_iff _ _).mp this
      · intro t w' hw' htU hmw
        have hiA : i ∈ obucket ((addTagsLoop db TT id).tagToAnnots t) :=
          (mem_obucket_iff _ _).mpr ⟨w', hw', hmw⟩
        rcases addTagsLoop_mem_new TT db id t i hid.2 hiA with h | ⟨h1, _, _⟩
        · obtain ⟨w0, hw0, hm0⟩ := (mem_obucket_iff _ _).mp h
          exact hrev2 t w0 hw0 htU hm0
        · exact absurd h1 hine
    · have hpe : p = (id, some jv) := List.mem_singleton.mp hp
      refine ⟨id, jv, hpe, hid, by rw [hAa2t]; exact hnone, hwfv, ?_, ?_⟩
      · intro t ht htne
        rcases hcase with ⟨h1, _⟩ | hsplit
        · rw [h1] at ht
          exact absurd (List.mem_singleton.mp (show t ∈ [""] from ht)) htne
        · have : id ∈ obucket ((addTagsLoop db TT id).tagToAnnots t) :=
            addTagsLoop_self_mem2 TT db id t hid (hsplit ▸ ht) htne
          exact (mem_obucket_iff _ _).mp this
      · intro t w' hw' htU hmw
        have hiA : id ∈ obucket ((addTagsLoop db TT id).tagToAnnots t) :=
          (mem_obucket_iff _ _).mpr ⟨w', hw', hmw⟩
        rcases addTagsLoop_mem_new TT db id t id hid.2 hiA with h | ⟨_, h2, h3⟩
        · obtain ⟨w0, hw0, hm0⟩ := (mem_obucket_iff _ _).mp h
          exact absurd hm0 (hNoOld t w0 hw0 htU)
        · rcases hcase with ⟨_, hTTe⟩ | hsplit
          · rw [hTTe] at h2
            exact absurd (List.mem_singleton.mp h2) htU
          · exact hsplit ▸ h2
  · rw [List.map_append]
    rw [List.nodup_append]
    refine ⟨hmid.keysNodup, List.nodup_singleton _, ?_⟩
    intro x hx
    simp only [List.map_cons, List.map_nil, List.mem_singleton]
    intro hcon
    exact hkey (hcon ▸ hx)

theorem addAnnot_pres (db : DB) (B : Batch String) (a : Annot) (annB : Batch Annot)
    (hmid : SyncMid db B) (hg : GoodAnn a)
    (hnone : db.annotToTags a.id = none) (hkey : a.id ∉ B.map Prod.fst) :
    SyncMid (addAnnot db a annB B).1 (B ++ [(a.id, some (join_ids a.tags))]) := by
  by_cases hc : a.tags = [] ∨ ¬ a.tags.any (fun t => ¬ trimEmpty t)
  · have hte : a.tags = [] := (goodAnn_sentinel_iff a hg).mp hc
    rw [addAnnot_db_of_sentinel db a annB B hc]
    have hjv : join_ids a.tags = "" := by rw [hte]; rfl
    rw [show mergeT2A db EMPTY_TAG a.id = addTagsLoop db [EMPTY_TAG] a.id by
      show _ = if EMPTY_TAG = "" then db else mergeT2A db EMPTY_TAG a.id
      rw [if_neg (by decide)]]
    exact addTagsLoop_syncMid db B a.id (join_ids a.tags) [EMPTY_TAG] hmid hg.1
      (fun t ht => by rw [List.mem_singleton.mp ht]; exact ⟨by decide, by decide⟩)
      hnone hkey (Or.inl ⟨hjv, rfl⟩)
  · rw [addAnnot_db_of_not db a annB B hc]
    have htne : a.tags ≠ [] := fun h => hc (Or.inl h)
    have hsplit : split_ids (join_ids a.tags) = a.tags :=
      split_ids_join_ids a.tags htne (fun t ht => (hg.2.1 t ht).2)
    exact addTagsLoop_syncMid db B a.id (join_ids a.tags) a.tags hmid hg.1
      hg.2.1 hnone hkey (Or.inr hsplit)

theorem inv_applyBatch (db : DB) (B : Batch String) (annB : Batch Annot)
    (hmid : SyncMid db B) :
    Inv { db with annotToTags := applyBatch db.annotToTags B
                  annots := applyBatch db.annots annB } := by
  have hlook : ∀ i, (∃ v, (i, some v) ∈ B ∧ applyBatch db.annotToTags B i = some v)
      ∨ (i ∉ B.map Prod.fst ∧ applyBatch db.annotToTags B i = db.annotToTags i) := by
    intro i
    by_cases hi : i ∈ B.map Prod.fst
    · obtain ⟨p, hp, hpe⟩ := List.mem_map.mp hi
      obtain ⟨i2, v2, hpe2, _⟩ := hmid.batch p hp
      rw [hpe2] at hp hpe
      obtain rfl : i2 = i := hpe
      exact Or.inl ⟨v2, hp, applyBatch_mem _ _ _ _ hp hmid.keysNodup⟩
    · exact Or.inr ⟨hi, applyBatch_notMem B db.annotToTags i hi⟩
  refine ⟨?_, ?_, ?_, ?_⟩
  · intro i v hv
    have hv' : applyBatch db.annotToTags B i = some v := hv
    rcases hlook i with ⟨vb, hmem, happ⟩ | ⟨_, happ⟩
    · rw [happ] at hv'
      obtain rfl : vb = v := Option.some.inj hv'
      obtain ⟨i2, v2, hpe, hgood, _, hwf, _, _⟩ := hmid.batch (i, some vb) hmem
      injection hpe with h1 h2
      subst h1
      obtain rfl : vb = v2 := Option.some.inj h2
      exact ⟨hgood, hwf⟩
    · rw [happ] at hv'
      exact hmid.wfA2T i v hv'
  · intro i v hv t ht htne
    have hv' : applyBatch db.annotToTags B i = some v := hv
    show ∃ w, db.tagToAnnots t = some w ∧ i ∈ split_ids w
    rcases hlook i with ⟨vb, hmem, happ⟩ | ⟨_, happ⟩
    · rw [happ] at hv'
      obtain rfl : vb = v := Option.some.inj hv'
      obtain ⟨i2, v2, hpe, _, _, _, hfwd, _⟩ := hmid.batch (i, some vb) hmem
      injection hpe with h1 h2
      subst h1
      obtain rfl : vb = v2 := Option.some.inj h2
      exact hfwd t ht htne
    · rw [happ] at hv'
      exact hmid.fwd i v hv' t ht htne
  · intro t w hw
    exact hmid.wfT2A t w hw
  · intro t w hw htU i hi
    have hw' : db.tagToAnnots t = some w := hw
    rcases hmid.rev t w hw' htU i hi with ⟨va, hva, hta⟩ | ⟨vb, hvb, htb⟩
    · have hni : i ∉ B.map Prod.fst := by
        intro hcon
        obtain ⟨p, hp, hpe⟩ := List.mem_map.mp hcon
        obtain ⟨i2, v2, hpe2, _, hnone2, _⟩ := hmid.batch p hp
        rw [hpe2] at hpe
        obtain rfl : i2 = i := hpe
        rw [hnone2] at hva
        exact Option.noConfusion hva
      refine ⟨va, ?_, hta⟩
      show applyBatch db.annotToTags B i = some va
      rw [applyBatch_notMem B db.annotToTags i hni]
      exact hva
    · exact ⟨vb, applyBatch_mem B db.annotToTags i (some vb) hvb hmid.keysNodup, htb⟩

theorem syncLoop_pres : ∀ (anns : List Annot) (db : DB) (added updated : Nat)
    (annB : Batch Annot) (B : Batch String),
    SyncMid db B → (∀ a ∈ anns, GoodAnn a) →
    (B.map Prod.fst ++ anns.map Annot.id).Nodup →
    ∀ r db2, syncLoop db anns added updated annB B = (Except.ok r, db2) →
    SyncMid db2 r.2.2.2 := by
  intro anns
  induction anns with
  | nil =>
    intro db added updated annB B hmid _ _ r db2 hrun
    have hrun' : ((Except.ok (added, updated, annB, B) :
        Except GErr (Nat × Nat × Batch Annot × Batch String)), db) =
        (Except.ok r, db2) := hrun
    injection hrun' with h1 h2
    injection h1 with h1
    rw [← h2, ← h1]
    exact hmid
  | cons a rest ih =>
    intro db added updated annB B hmid hgood hnd r db2 hrun
    unfold syncLoop at hrun
    have hga : GoodAnn a := hgood a (List.mem_cons_self _ _)
    have hkey : a.id ∉ B.map Prod.fst := by
      intro hcon
      exact (List.nodup_append.mp hnd).2.2 hcon (by simp)
    have hgood' : ∀ x ∈ rest, GoodAnn x := fun x hx => hgood x (List.mem_cons_of_mem _ hx)
    have hnd2 : ((B ++ [(a.id, some (join_ids a.tags))]).map Prod.fst
        ++ rest.map Annot.id).Nodup := by
      rw [List.map_append, List.append_assoc]
      simpa using hnd
    by_cases hc : (db.annotToTags a.id).isSome = true
    · rw [if_pos hc] at hrun
      cases hd : (deleteAnnot db a.id).1 with
      | error e =>
        have heq : deleteAnnot db a.id = (Except.error e, (deleteAnnot db a.id).2) := by
          rw [← hd]
        rw [heq] at hrun
        exact absurd (congrArg Prod.fst hrun) (by simp)
      | ok ts =>
        have heq : deleteAnnot db a.id = (Except.ok ts, (deleteAnnot db a.id).2) := by
          rw [← hd]
        rw [heq] at hrun
        obtain ⟨hmidD, hDnone⟩ := deleteAnnot_pres db B a.id ts hmid hd
        have hmidA := addAnnot_pres (deleteAnnot db a.id).2 B a annB hmidD hga hDnone hkey
        exact ih _ added (updated + 1) _ _ hmidA hgood' hnd2 r db2 hrun
    · rw [if_neg hc] at hrun
      have hnone : db.annotToTags a.id = none := by
        cases hv : db.annotToTags a.id with
        | none => rfl
        | some v => rw [hv] at hc; exact absurd rfl hc
      have hmidA := addAnnot_pres db B a annB hmid hga hnone hkey
      exact ih _ (added + 1) updated _ _ hmidA hgood' hnd2 r db2 hrun

theorem syncAnnots_pres (db : DB) (anns : List Annot) (hinv : Inv db)
    (hgood : ∀ a ∈ anns, GoodAnn a) (hnd : (anns.map Annot.id).Nodup)
    (r : Nat × Nat) (hok : (syncAnnots db anns).1 = Except.ok r) :
    Inv (syncAnnots db anns).2 := by
  unfold syncAnnots at hok ⊢
  cases hrun : syncLoop db anns 0 0 [] [] with
  | mk res db' =>
    cases res with
    | error e =>
      rw [hrun] at hok
      exact Except.noConfusion hok
    | ok rr =>
      have hmid := syncLoop_pres anns db 0 0 [] [] (syncMid_nil_of_inv db hinv)
        hgood (by simpa using hnd) rr db' hrun
      exact inv_applyBatch db' rr.2.2.2 rr.2.2.1 hmid

theorem deleteAnnotsTagLoop_eq : ∀ (tags : List String) (db : DB) (id : String),
    "" ∉ tags → deleteAnnotsTagLoop db tags id = deleteTagsLoop db tags id := by
  intro tags
  induction tags with
  | nil => intro db id _; rfl
  | cons t rest ih =>
    intro db id h
    have ht : t ≠ "" := fun hcon => h (hcon ▸ List.mem_cons_self _ _)
    have hr : "" ∉ rest := fun hcon => h (List.mem_cons_of_mem _ hcon)
    unfold deleteAnnotsTagLoop deleteTagsLoop
    rw [if_neg ht]
    cases hd : (deleteFromT2A db t id).1 with
    | error e =>
      have heq : deleteFromT2A db t id = (Except.error e, (deleteFromT2A db t id).2) := by
        rw [← hd]
      rw [heq]
    | ok u =>
      have heq : deleteFromT2A db t id = (Except.ok u, (deleteFromT2A db t id).2) := by
        rw [← hd]
      rw [heq]
      exact ih _ id hr

theorem applyBatch_removals {α : Type} : ∀ (B : Batch α) (m : Tree α),
    (∀ p ∈ B, p.2 = none) → ∀ k,
    applyBatch m B k = if k ∈ B.map Prod.fst then none else m k := by
  intro B
  induction B with
  | nil =>
    intro m _ k
    rw [if_neg (by simp)]
    rfl
  | cons p rest ih =>
    intro m hB k
    have hp : p.2 = none := hB p (List.mem_cons_self _ _)
    have hrest : ∀ q ∈ rest, q.2 = none := fun q hq => hB q (List.mem_cons_of_mem _ hq)
    show applyBatch (upd m p.1 p.2) rest k = _
    rw [ih (upd m p.1 p.2) hrest k]
    by_cases hk : k ∈ rest.map Prod.fst
    · rw [if_pos hk, if_pos (by simp [hk])]
    · rw [if_neg hk]
      by_cases hk1 : k = p.1
      · rw [if_pos (by simp [hk1]), hk1, upd_self, hp]
      · rw [if_neg (by simp [hk1, hk])]
        exact upd_other _ _ _ _ hk1

theorem delMid_step (db0 db : DB) (X : List String) (id : String) (tags : List String)
    (hmid : DelMid db0 db X) (hg : getAnnotTags db id = Except.ok tags)
    (hok : (deleteAnnotsTagLoop db tags id).1 = Except.ok ()) :
    DelMid db0 (deleteAnnotsTagLoop db tags id).2 (X ++ [id]) := by
  unfold getAnnotTags at hg
  cases hv : db.annotToTags id with
  | none => rw [hv] at hg; exact Except.noConfusion hg
  | some v =>
    rw [hv] at hg
    dsimp only at hg
    by_cases hcond : (split_ids v).length = 1 ∧ (split_ids v).headI = ""
    · rw [if_pos hcond] at hg
      obtain rfl : ([] : List String) = tags := Except.ok.inj hg
      obtain ⟨x, hx⟩ := List.length_eq_one.mp hcond.1
      have hx0 : x = "" := by have h2 := hcond.2; rw [hx] at h2; exact h2
      have hv0 : v = "" := (split_ids_eq_empty v).mp (by rw [hx, hx0])
      have hgone : ∀ t w, db.tagToAnnots t = some w → t ≠ EMPTY_TAG →
          id ∉ split_ids w := by
        intro t w hw htU hcon
        obtain ⟨v', hv', ht'⟩ := hmid.rev t w hw htU id hcon
        rw [hv] at hv'
        obtain rfl : v = v' := Option.some.inj hv'
        rw [hv0] at ht'
        have ht0 : t = "" := List.mem_singleton.mp ht'
        exact (hmid.wfT2A t w hw).1.1 ht0
      refine ⟨hmid.a2t_eq, hmid.annots_eq, hmid.wfA2T, ?_, hmid.wfT2A, hmid.rev, ?_⟩
      · intro i v' hvi hiX t ht htne
        have hiX' : i ∉ X := fun h => hiX (List.mem_append.mpr (Or.inl h))
        exact hmid.fwdX i v' hvi hiX' t ht htne
      · intro i0 hi0 t w hw htU hcon
        rcases List.mem_append.mp hi0 with hX | hid
        · exact hmid.clean i0 hX t w hw htU hcon
        · obtain rfl : i0 = id := List.mem_singleton.mp hid
          exact hgone t w hw htU hcon
    · rw [if_neg hcond] at hg
      obtain rfl : split_ids v = tags := Except.ok.inj hg
      have hvne : v ≠ "" := fun h0 => hcond (by rw [h0]; exact ⟨rfl, rfl⟩)
      rcases (hmid.wfA2T id v hv).2 with h0 | hgoodt
      · exact absurd h0 hvne
      have hne : "" ∉ split_ids v := fun h => (hgoodt "" h).1 rfl
      rw [deleteAnnotsTagLoop_eq _ _ _ hne] at hok ⊢
      obtain ⟨c1, c2, c3, c4⟩ := deleteTagsLoop_core (split_ids v) db id hmid.wfT2A hok
      have hfr := deleteTagsLoop_frame (split_ids v) db id
      have ha2t : (deleteTagsLoop db (split_ids v) id).2.annotToTags = db.annotToTags :=
        hfr.2.1
      have hgoneD : ∀ t w, (deleteTagsLoop db (split_ids v) id).2.tagToAnnots t = some w →
          t ≠ EMPTY_TAG → id ∉ split_ids w := by
        intro t w hw htU hcon
        by_cases htag : t ∈ split_ids v
        · have htne : t ≠ "" := (c1 t w hw).1.1
          exact c3 t htag htne ((mem_obucket_iff _ _).mpr ⟨w, hw, hcon⟩)
        · have hw0 : db.tagToAnnots t = some w := by rw [← c4 t (Or.inl htag)]; exact hw
          obtain ⟨v', hv', ht'⟩ := hmid.rev t w hw0 htU id hcon
          rw [hv] at hv'
          obtain rfl : v = v' := Option.some.inj hv'
          exact htag ht'
      refine ⟨?_, ?_, ?_, ?_, c1, ?_, ?_⟩
      · intro k; rw [ha2t]; exact hmid.a2t_eq k
      · intro k; rw [hfr.1]; exact hmid.annots_eq k
      · intro i v' h; rw [ha2t] at h; exact hmid.wfA2T i v' h
      · intro i v' hvi hiX t ht htne
        rw [ha2t] at hvi
        have hiX' : i ∉ X := fun h => hiX (List.mem_append.mpr (Or.inl h))
        have hiid : i ≠ id := fun h =>
          hiX (List.mem_append.mpr (Or.inr (by rw [h]; exact List.mem_singleton.mpr rfl)))
        obtain ⟨w, hw, hiw⟩ := hmid.fwdX i v' hvi hiX' t ht htne
        exact (mem_obucket_iff _ _).mp
          ((c2 t i hiid).mpr ((mem_obucket_iff _ _).mpr ⟨w, hw, hiw⟩))
      · intro t w hw htU i hi
        by_cases hiid : i = id
        · subst hiid
          exact absurd hi (hgoneD t w hw htU)
        · obtain ⟨w0, hw0, hiw0⟩ := (mem_obucket_iff _ _).mp
            ((c2 t i hiid).mp ((mem_obucket_iff _ _).mpr ⟨w, hw, hi⟩))
          obtain ⟨v'', hv'', ht''⟩ := hmid.rev t w0 hw0 htU i hiw0
          exact ⟨v'', by rw [ha2t]; exact hv'', ht''⟩
      · intro i0 hi0 t w hw htU hcon
        rcases List.mem_append.mp hi0 with hX | hid
        · by_cases hiid : i0 = id
          · subst hiid
            exact hgoneD t w hw htU hcon
          · obtain ⟨w0, hw0, hiw0⟩ := (mem_obucket_iff _ _).mp
              ((c2 t i0 hiid).mp ((mem_obucket_iff _ _).mpr ⟨w, hw, hcon⟩))
            exact hmid.clean i0 hX t w0 hw0 htU hiw0
        · obtain rfl : i0 = id := List.mem_singleton.mp hid
          exact hgoneD t w hw htU hcon

theorem deleteAnnotsLoop_pres : ∀ (ids : List String) (db0 db : DB) (X : List String)
    (a2tB : Batch String) (annB : Batch Annot) (tl : List (List String)),
    DelMid db0 db X → a2tB.map Prod.fst = X → (∀ p ∈ a2tB, p.2 = none) →
    ∀ r db2, deleteAnnotsLoop db ids a2tB annB tl = (Except.ok r, db2) →
    DelMid db0 db2 (r.1.map Prod.fst) ∧ (∀ p ∈ r.1, p.2 = none) := by
  intro ids
  induction ids with
  | nil =>
    intro db0 db X a2tB annB tl hmid hkeys hnone r db2 hrun
    have hrun' : ((Except.ok (a2tB, annB, tl) :
        Except GErr (Batch String × Batch Annot × List (List String))), db) =
        (Except.ok r, db2) := hrun
    injection hrun' with h1 h2
    injection h1 with h1
    rw [← h1, ← h2]
    refine ⟨?_, hnone⟩
    show DelMid db0 db (a2tB.map Prod.fst)
    rw [hkeys]
    exact hmid
  | cons id rest ih =>
    intro db0 db X a2tB annB tl hmid hkeys hnone r db2 hrun
    unfold deleteAnnotsLoop at hrun
    split at hrun
    next e hg => exact absurd (congrArg Prod.fst hrun) (by simp)
    next tags hg =>
      split at hrun
      next e db' hd => exact absurd (congrArg Prod.fst hrun) (by simp)
      next u db' hd =>
        cases u
        have hd1 : (deleteAnnotsTagLoop db tags id).1 = Except.ok () := by rw [hd]
        have hdb' : (deleteAnnotsTagLoop db tags id).2 = db' := by rw [hd]
        have hstep := delMid_step db0 db X id tags hmid hg hd1
        rw [hdb'] at hstep
        have hkeys2 : ((a2tB ++ [(id, none)]).map Prod.fst) = X ++ [id] := by
          simp [hkeys]
        have hnone2 : ∀ p ∈ a2tB ++ [(id, none)], p.2 = none := by
          intro p hp
          rcases List.mem_append.mp hp with h | h
          · exact hnone p h
          · rw [List.mem_singleton.mp h]
        exact ih db0 db' (X ++ [id]) (a2tB ++ [(id, none)]) _ _ hstep hkeys2 hnone2 r db2 hrun

theorem delMid_init (db : DB) (h : Inv db) : DelMid db db [] :=
  ⟨fun _ => rfl, fun _ => rfl, h.wfA2T, fun i v hv _ => h.fwd i v hv, h.wfT2A, h.rev,
    fun i hi => absurd hi (List.not_mem_nil i)⟩

theorem delMid_final (db0 db : DB) (B : Batch String) (annB : Batch Annot)
    (hmid : DelMid db0 db (B.map Prod.fst)) (hnone : ∀ p ∈ B, p.2 = none) :
    Inv { db with annotToTags := applyBatch db.annotToTags B
                  annots := applyBatch db.annots annB } := by
  have happ : ∀ k, applyBatch db.annotToTags B k =
      if k ∈ B.map Prod.fst then none else db.annotToTags k :=
    applyBatch_removals B db.annotToTags hnone
  refine ⟨?_, ?_, ?_, ?_⟩
  · intro i v hv
    have hv' : applyBatch db.annotToTags B i = some v := hv
    rw [happ i] at hv'
    by_cases hi : i ∈ B.map Prod.fst
    · rw [if_pos hi] at hv'
      exact Option.noConfusion hv'
    · rw [if_neg hi] at hv'
      exact hmid.wfA2T i v hv'
  · intro i v hv t ht htne
    have hv' : applyBatch db.annotToTags B i = some v := hv
    rw [happ i] at hv'
    by_cases hi : i ∈ B.map Prod.fst
    · rw [if_pos hi] at hv'
      exact Option.noConfusion hv'
    · rw [if_neg hi] at hv'
      show ∃ w, db.tagToAnnots t = some w ∧ i ∈ split_ids w
      exact hmid.fwdX i v hv' hi t ht htne
  · intro t w hw
    exact hmid.wfT2A t w hw
  · intro t w hw htU i hi
    have hw' : db.tagToAnnots t = some w := hw
    obtain ⟨v, hv, ht⟩ := hmid.rev t w hw' htU i hi
    have hiB : i ∉ B.map Prod.fst := fun hcon => hmid.clean i hcon t w hw' htU hi
    refine ⟨v, ?_, ht⟩
    show applyBatch db.annotToTags B i = some v
    rw [happ i, if_neg hiB]
    exact hv

theorem deleteAnnots_pres (db : DB) (ids : List String) (hinv : Inv db)
    (r : List (List String)) (hok : (deleteAnnots db ids).1 = Except.ok r) :
    Inv (deleteAnnots db ids).2 := by
  unfold deleteAnnots at hok ⊢
  cases hrun : deleteAnnotsLoop db ids [] [] [] with
  | mk res db' =>
    cases res with
    | error e =>
      rw [hrun] at hok
      exact Except.noConfusion hok
    | ok rr =>
      obtain ⟨hmid, hnone⟩ := deleteAnnotsLoop_pres ids db db [] [] [] []
        (delMid_init db hinv) rfl (fun p hp => absurd hp (List.not_mem_nil p)) rr db' hrun
      exact delMid_final db db' rr.1 rr.2.1 hmid hnone

theorem inv_empty : Inv emptyDB := by
  refine ⟨?_, ?_, ?_, ?_⟩
  · intro i v h; exact Option.noConfusion h
  · intro i v h; exact Option.noConfusion h
  · intro t w h; exact Option.noConfusion h
  · intro t w h; exact Option.noConfusion h

theorem gstep_pres : ∀ db db', GStep db db' → Inv db → Inv db' := by
  intro db db' h hinv
  cases h with
  | syncStep anns hg hnd hok =>
    obtain ⟨r, hr⟩ := hok
    exact syncAnnots_pres db anns hinv hg hnd r hr
  | deleteStep id hok =>
    obtain ⟨ts, hts⟩ := hok
    exact inv_of_syncMid_nil _
      (deleteAnnot_pres db [] id ts (syncMid_nil_of_inv db hinv) hts).1
  | deleteBatchStep ids hok =>
    obtain ⟨r, hr⟩ := hok
    exact deleteAnnots_pres db ids hinv r hr

theorem inv_tagIndexConsistent (db : DB) (hinv : Inv db) : TagIndexConsistent db := by
  intro id a _ T hT
  unfold getAnnotTags at hT
  cases hv : db.annotToTags id with
  | none => rw [hv] at hT; exact Except.noConfusion hT
  | some v =>
    rw [hv] at hT
    dsimp only at hT
    by_cases hcond : (split_ids v).length = 1 ∧ (split_ids v).headI = ""
    · rw [if_pos hcond] at hT
      obtain rfl : ([] : List String) = T := Except.ok.inj hT
      obtain ⟨x, hx⟩ := List.length_eq_one.mp hcond.1
      have hx0 : x = "" := by have h2 := hcond.2; rw [hx] at h2; exact h2
      have hv0 : v = "" := (split_ids_eq_empty v).mp (by rw [hx, hx0])
      constructor
      · intro t ht
        exact absurd ht (List.not_mem_nil t)
      · intro t' ids' htU hta hmem
        unfold getTaggedAnnots at hta
        cases hw : db.tagToAnnots t' with
        | none => rw [hw] at hta; exact Except.noConfusion hta
        | some w =>
          rw [hw] at hta
          obtain rfl : split_ids w = ids' := Except.ok.inj hta
          obtain ⟨v', hv', ht'⟩ := hinv.rev t' w hw htU id hmem
          rw [hv] at hv'
          obtain rfl : v = v' := Option.some.inj hv'
          rw [hv0] at ht'
          exact absurd (List.mem_singleton.mp ht') (hinv.wfT2A t' w hw).1.1
    · rw [if_neg hcond] at hT
      obtain rfl : split_ids v = T := Except.ok.inj hT
      have hvne : v ≠ "" := fun h0 => hcond (by rw [h0]; exact ⟨rfl, rfl⟩)
      constructor
      · intro t ht
        have htg : GoodStr t := by
          rcases (hinv.wfA2T id v hv).2 with h0 | hg
          · exact absurd h0 hvne
          · exact hg t ht
        obtain ⟨w, hw, hiw⟩ := hinv.fwd id v hv t ht htg.1
        refine ⟨split_ids w, ?_, hiw⟩
        unfold getTaggedAnnots
        rw [hw]
      · intro t' ids' htU hta hmem
        unfold getTaggedAnnots at hta
        cases hw : db.tagToAnnots t' with
        | none => rw [hw] at hta; exact Except.noConfusion hta
        | some w =>
          rw [hw] at hta
          obtain rfl : split_ids w = ids' := Except.ok.inj hta
          obtain ⟨v', hv', ht'⟩ := hinv.rev t' w hw htU id hmem
          rw [hv] at hv'
          obtain rfl : v = v' := Option.some.inj hv'
          exact ht'

/-- C1 counterexample to the claim as stated: after syncing the single
untagged annotation "u1" from the fresh store, "u1" is in the Record
Store with tags_of("u1") = [], yet annotations_of("Untagged") contains
"u1" while "Untagged" is not a member of [] — the reverse direction of
the stated bidirectional consistency fails at the EMPTY_TAG sentinel
bucket. -/
theorem C1_counterexample :
    ¬ TagIndexConsistentStated (syncAnnots emptyDB [mkAnn "u1" [] 1 1]).2 := by
  intro h
  have h2 := (h "u1" (mkAnn "u1" [] 1 1) (by decide) [] (by decide)).2
  have h3 := h2 EMPTY_TAG ["u1"] (by decide) (by decide)
  exact absurd h3 (List.not_mem_nil EMPTY_TAG)

/-- C1: in every store state reachable from the fresh store by
successful sync_annotations batches of well-formed annotations with
pairwise-distinct ids, delete_annotation calls and delete_annotations
calls, the Tag Index is bidirectionally consistent up to the EMPTY_TAG
sentinel bucket: for every id in the Record Store with
tags_of(id) = T, every t ∈ T has id ∈ annotations_of(t), and every
non-sentinel tag t' with id ∈ annotations_of(t') is a member of T. -/
theorem C1_tag_index_consistent (db : DB) (h : Reach db) : TagIndexConsistent db := by
  refine inv_tagIndexConsistent db ?_
  have hr : Relation.ReflTransGen GStep emptyDB db := h
  clear h
  induction hr with
  | refl => exact inv_empty
  | tail hsteps hstep ih => exact gstep_pres _ _ hstep ih

/-- C1 witness: the consistency property at the state reached by one
successful sync of a single well-formed tagged annotation. -/
theorem C1_tag_index_consistent_witness :
    TagIndexConsistent (syncAnnots emptyDB [mkAnn "a1" ["x"] 1 1]).2 :=
  C1_tag_index_consistent _
    (Relation.ReflTransGen.single
      (GStep.syncStep emptyDB [mkAnn "a1" ["x"] 1 1]
        (by
          intro a ha
          rw [List.mem_singleton.mp ha]
          exact ⟨⟨by decide, by decide⟩,
            (by
              intro t ht
              rw [List.mem_singleton.mp ht]
              exact ⟨by decide, by decide⟩),
            fun _ => ⟨"x", by decide, by decide⟩⟩)
        (by decide)
        ⟨(1, 0), by decide⟩))

/-- C3 witness: the amended idempotence at an annotation tagged ["x"]
over the empty store. -/
theorem C3_upsert_idempotent_witness :
    (syncAnnots (syncAnnots emptyDB [mkAnn "a1" ["x"] 1 1]).2 [mkAnn "a1" ["x"] 1 1]).1 =
      Except.ok (0, 1) ∧
    SameVisible (syncAnnots (syncAnnots emptyDB [mkAnn "a1" ["x"] 1 1]).2
        [mkAnn "a1" ["x"] 1 1]).2 (syncAnnots emptyDB [mkAnn "a1" ["x"] 1 1]).2 :=
  C3_upsert_idempotent emptyDB (mkAnn "a1" ["x"] 1 1)
    (⟨by decide, by decide⟩)
    (by decide)
    (by intro t ht; fin_cases ht; exact ⟨by decide, by decide⟩)
    (Or.inr ⟨"x", by decide, by decide⟩)
    rfl
    (fun k => List.not_mem_nil _)

end Gooseberry
